import Mathlib

/-!
Verification development for the ScoreAnalysis repository
(`data_processor.py` and `app.py`).

The data-processing core is shallowly embedded: pandas DataFrames become
Lean lists of structured rows, numeric scores become rationals (`ℚ`), and
missing values (`NaN`) become `Option` values.  Each definition mirrors the
corresponding Python function; line references point into
`src/data_processor.py` unless stated otherwise.

Rounding convention: Python's `round(x, 2)` is modelled by `pyRound2`,
which rounds `x * 100` to the nearest integer (ties away from the float
tie-breaking details, which no verified property exercises) and divides
by `100`.  All properties proved here only need that the rounding map is
monotone and fixes the integers `0` and `10000`.
-/

namespace ScoreAnalysis

/-- Model of Python `round(q, 2)`: round to the nearest multiple of 1/100. -/
def pyRound2 (q : ℚ) : ℚ := (round (q * 100) : ℚ) / 100

/-- Rounding to the nearest integer is monotone (via `round_eq` and
monotonicity of the floor function). -/
theorem round_rat_mono {x y : ℚ} (h : x ≤ y) : round x ≤ round y := by
  rw [round_eq, round_eq]
  exact Int.floor_le_floor (by linarith)

/-- Two-decimal rounding is monotone. -/
theorem pyRound2_mono {x y : ℚ} (h : x ≤ y) : pyRound2 x ≤ pyRound2 y := by
  unfold pyRound2
  have : round (x * 100) ≤ round (y * 100) := round_rat_mono (by linarith)
  have h2 : ((round (x * 100) : ℤ) : ℚ) ≤ ((round (y * 100) : ℤ) : ℚ) := by
    exact_mod_cast this
  linarith

/-- Rounding a quantity in `[0, 100]` to two decimals stays in `[0, 100]`. -/
theorem pyRound2_mem_Icc {x : ℚ} (h0 : 0 ≤ x) (h1 : x ≤ 100) :
    0 ≤ pyRound2 x ∧ pyRound2 x ≤ 100 := by
  constructor
  · have : pyRound2 0 ≤ pyRound2 x := pyRound2_mono h0
    simpa [pyRound2] using this
  · have : pyRound2 x ≤ pyRound2 100 := pyRound2_mono h1
    have h100 : pyRound2 (100 : ℚ) = 100 := by
      unfold pyRound2
      rw [show (100 : ℚ) * 100 = ((10000 : ℤ) : ℚ) by norm_num, round_intCast]
      norm_num
    simpa [h100] using this

/-- Model of Python `str.strip()`: drop whitespace from both ends
(structurally recursive so that concrete evaluations reduce). -/
def pyStrip (s : String) : String :=
  ⟨((s.data.dropWhile Char.isWhitespace).reverse.dropWhile
      Char.isWhitespace).reverse⟩

/-- Model of Python `str.startswith(p)`. -/
def pyStartsWith (s p : String) : Bool := p.data.isPrefixOf s.data

/-- Model of the class-label cleanup
`astype(str).str.strip()` followed by `replace(['nan','None',''], '')`
(`data_processor.py` lines 598-600 and elsewhere). -/
def normCls (s : String) : String :=
  let t := pyStrip s
  if t = "nan" ∨ t = "None" ∨ t = "" then "" else t

/-- Substring occurrence check on character lists, by brute force over
all starting offsets. -/
def listInfix (pat s : List Char) : Bool :=
  (List.range (s.length + 1)).any
    (fun i => decide (((s.drop i).take pat.length) = pat))

/-- Model of the Python substring test `'总分' in str(col)`. -/
def containsZF (s : String) : Bool := listInfix "总分".data s.data

/-- First-appearance deduplication, the model of `pandas.Series.unique`
(documented to return uniques in order of appearance). -/
def uniqueFirst {α : Type} [DecidableEq α] (l : List α) : List α :=
  l.foldl (fun acc x => if x ∈ acc then acc else acc ++ [x]) []

theorem uniqueFirst_aux_mem {α : Type} [DecidableEq α] (l acc : List α) (x : α) :
    x ∈ l.foldl (fun acc x => if x ∈ acc then acc else acc ++ [x]) acc ↔
      x ∈ acc ∨ x ∈ l := by
  induction l generalizing acc with
  | nil => simp
  | cons y ys ih =>
      simp only [List.foldl_cons]
      by_cases hy : y ∈ acc
      · simp only [if_pos hy, ih]
        constructor
        · rintro (h | h)
          · exact Or.inl h
          · exact Or.inr (List.mem_cons_of_mem _ h)
        · rintro (h | h)
          · exact Or.inl h
          · rcases List.mem_cons.mp h with rfl | h
            · exact Or.inl hy
            · exact Or.inr h
      · simp only [if_neg hy, ih, List.mem_append, List.mem_singleton]
        constructor
        · rintro ((h | h) | h)
          · exact Or.inl h
          · exact Or.inr (h ▸ List.mem_cons_self _ _)
          · exact Or.inr (List.mem_cons_of_mem _ h)
        · rintro (h | h)
          · exact Or.inl (Or.inl h)
          · rcases List.mem_cons.mp h with rfl | h
            · exact Or.inl (Or.inr rfl)
            · exact Or.inr h

theorem mem_uniqueFirst {α : Type} [DecidableEq α] (l : List α) (x : α) :
    x ∈ uniqueFirst l ↔ x ∈ l := by
  unfold uniqueFirst
  simpa using uniqueFirst_aux_mem l [] x

theorem uniqueFirst_aux_nodup {α : Type} [DecidableEq α] (l acc : List α)
    (h : acc.Nodup) :
    (l.foldl (fun acc x => if x ∈ acc then acc else acc ++ [x]) acc).Nodup := by
  induction l generalizing acc with
  | nil => simpa using h
  | cons y ys ih =>
      simp only [List.foldl_cons]
      by_cases hy : y ∈ acc
      · rw [if_pos hy]; exact ih acc h
      · rw [if_neg hy]
        refine ih _ ?_
        simpa [List.nodup_append, h] using hy

theorem uniqueFirst_nodup {α : Type} [DecidableEq α] (l : List α) :
    (uniqueFirst l).Nodup :=
  uniqueFirst_aux_nodup l [] List.nodup_nil

/-- Insertion step for a stable descending sort on a rational key:
the new element goes after every strictly greater element and before
every element whose key is less than or equal.  This mirrors the
stability guarantee of Python `list.sort(key=..., reverse=True)`. -/
def insertDesc {α : Type} (key : α → ℚ) (x : α) : List α → List α
  | [] => [x]
  | y :: ys => if key x < key y then y :: insertDesc key x ys else x :: y :: ys

/-- Stable descending sort by a rational key, the model of
`list.sort(key=..., reverse=True)`. -/
def sortByDesc {α : Type} (key : α → ℚ) : List α → List α
  | [] => []
  | x :: xs => insertDesc key x (sortByDesc key xs)

theorem insertDesc_perm {α : Type} (key : α → ℚ) (x : α) (l : List α) :
    (insertDesc key x l).Perm (x :: l) := by
  induction l with
  | nil => simp [insertDesc]
  | cons y ys ih =>
      unfold insertDesc
      by_cases h : key x < key y
      · rw [if_pos h]
        exact (ih.cons y).trans (List.Perm.swap x y ys)
      · rw [if_neg h]

theorem sortByDesc_perm {α : Type} (key : α → ℚ) (l : List α) :
    (sortByDesc key l).Perm l := by
  induction l with
  | nil => simp [sortByDesc]
  | cons x xs ih =>
      exact (insertDesc_perm key x (sortByDesc key xs)).trans (ih.cons x)

theorem insertDesc_sorted {α : Type} (key : α → ℚ) (x : α) (l : List α)
    (h : l.Pairwise (fun a b => key b ≤ key a)) :
    (insertDesc key x l).Pairwise (fun a b => key b ≤ key a) := by
  induction l with
  | nil => simp [insertDesc]
  | cons y ys ih =>
      unfold insertDesc
      rcases List.pairwise_cons.mp h with ⟨hy, hys⟩
      by_cases hxy : key x < key y
      · rw [if_pos hxy]
        refine List.pairwise_cons.mpr ⟨?_, ih hys⟩
        intro b hb
        have hperm := insertDesc_perm key x ys
        rcases List.mem_cons.mp ((hperm.mem_iff).mp hb) with rfl | h1
        · exact le_of_lt hxy
        · exact hy b h1
      · rw [if_neg hxy]
        refine List.pairwise_cons.mpr ⟨?_, h⟩
        intro b hb
        rcases List.mem_cons.mp hb with rfl | h1
        · exact le_of_not_lt hxy
        · exact le_trans (hy b h1) (le_of_not_lt hxy)

theorem sortByDesc_sorted {α : Type} (key : α → ℚ) (l : List α) :
    (sortByDesc key l).Pairwise (fun a b => key b ≤ key a) := by
  induction l with
  | nil => simp [sortByDesc]
  | cons x xs ih => exact insertDesc_sorted key x _ ih

/-- Stability of the insertion step, expressed through filters: the
elements whose key equals any fixed value `q` appear in the same relative
order before and after insertion, with the inserted element placed before
other elements of equal key. -/
theorem insertDesc_filter {α : Type} (key : α → ℚ) (x : α) (l : List α)
    (q : ℚ) (h : l.Pairwise (fun a b => key b ≤ key a)) :
    (insertDesc key x l).filter (fun a => decide (key a = q)) =
      if key x = q then x :: l.filter (fun a => decide (key a = q))
      else l.filter (fun a => decide (key a = q)) := by
  induction l with
  | nil => by_cases hx : key x = q <;> simp [insertDesc, hx]
  | cons y ys ih =>
      rcases List.pairwise_cons.mp h with ⟨hy, hys⟩
      unfold insertDesc
      by_cases hxy : key x < key y
      · rw [if_pos hxy]
        by_cases hx : key x = q
        · have hyq : ¬ key y = q := by
            intro hk
            exact absurd (hk.trans hx.symm) (ne_of_gt hxy)
          simp [List.filter_cons, hyq, ih hys, hx]
        · simp [List.filter_cons, ih hys, hx]
      · rw [if_neg hxy]
        by_cases hx : key x = q <;> simp [List.filter_cons, hx]

theorem sortByDesc_filter {α : Type} (key : α → ℚ) (l : List α) (q : ℚ) :
    (sortByDesc key l).filter (fun a => decide (key a = q)) =
      l.filter (fun a => decide (key a = q)) := by
  induction l with
  | nil => simp [sortByDesc]
  | cons x xs ih =>
      unfold sortByDesc
      rw [insertDesc_filter key x _ q (sortByDesc_sorted key xs)]
      by_cases hx : key x = q <;> simp [List.filter_cons, hx, ih]

/-!
## Data model

A per-subject table, as handed to `analyze_school_total_score`,
`calculate_class_assessment` and `analyze_school_scores` by
`read_school_data` / `build_school_data_from_league`: rows with a name, a
class label (meaningful only when the `班级` column is present, tracked by
`hasCls`) and a score whose numeric coercion may have failed (`none`
models `NaN`).
-/

structure SRow where
  name : String
  cls : String
  score : Option ℚ
deriving DecidableEq, Repr

structure SubjectDF where
  hasCls : Bool
  rows : List SRow
deriving DecidableEq, Repr

/-- A cleaned subject row: score known numeric, name stripped, class
normalized (`data_processor.py` lines 594-612). -/
structure SRowC where
  name : String
  cls : String
  score : ℚ
deriving DecidableEq, Repr

/-- Per-subject cleanup performed inside the merge loop
(`data_processor.py` lines 594-616): copy name and score, strip the name,
normalize the class label (empty string when the source table has no
class column), numeric-coerce the score and drop rows with missing
score. -/
def cleanTable (df : SubjectDF) : List SRowC :=
  df.rows.filterMap (fun r =>
    match r.score with
    | none => none
    | some q => some ⟨pyStrip r.name, if df.hasCls then normCls r.cls else "", q⟩)

/-- A row of the accumulated merged table.  `cls` is `none` when the
`班级` cell is null (possible after an outer join) and `scores` holds one
`Option ℚ` per merged subject column, in column order. -/
structure TRow where
  name : String
  cls : Option String
  scores : List (Option ℚ)
deriving DecidableEq, Repr

/-- The accumulated merged table.  `hasCls` records whether a column
literally named `班级` is present (an outer join on `姓名` alone renames
two clashing `班级` columns to `班级_x`/`班级_y`, destroying it; a later
name-only join against a frame that does have `班级` reintroduces it).
`stray` records that such a suffix-renaming has happened, i.e. that the
real DataFrame carries extra string-valued `班级_x`-style columns which
this model does not track; theorems about row contents therefore assume
`stray = false`. -/
structure TotalDF where
  hasCls : Bool
  stray : Bool
  subjCols : List String
  rows : List TRow
deriving DecidableEq, Repr

def keyT (r : TRow) : String × Option String := (r.name, r.cls)

def keyS (s : SRowC) : String × Option String := (s.name, some s.cls)

/-- Join-key agreement between an accumulated row and a subject row:
on `姓名` alone, or on `姓名` and `班级`. -/
def keyAgree (useCls : Bool) (l : TRow) (r : SRowC) : Bool :=
  if useCls then decide (l.name = r.name ∧ l.cls = some r.cls)
  else decide (l.name = r.name)

/-- Class value of a combined row: with the class key it is the shared
key value; in a name-only join the right class column survives only when
the left frame has none (otherwise both get suffixed away). -/
def joinedCls (useCls accHasCls : Bool) (l : TRow) (r : SRowC) : Option String :=
  if useCls then l.cls else if accHasCls then none else some r.cls

/-- Class value of a left-only row (null when the surviving class column
comes from the right frame). -/
def leftCls (useCls : Bool) (l : TRow) : Option String :=
  if useCls then l.cls else none

/-- Class value of a right-only row. -/
def rightCls (useCls accHasCls : Bool) (r : SRowC) : Option String :=
  if !useCls && accHasCls then none else some r.cls

/-- Outer join of the accumulated table (`nSubj` subject columns) with
one cleaned subject table, modelling `pd.merge(..., how='outer')`
(`data_processor.py` lines 637-642): every left row paired with each
key-matching right row (null score when none), followed by the unmatched
right rows in order. -/
def outerMerge (useCls accHasCls : Bool) (nSubj : Nat)
    (left : List TRow) (right : List SRowC) : List TRow :=
  (left.flatMap (fun l =>
    let ms := right.filter (fun r => keyAgree useCls l r)
    if ms.isEmpty then [⟨l.name, leftCls useCls l, l.scores ++ [none]⟩]
    else ms.map (fun r =>
      ⟨l.name, joinedCls useCls accHasCls l r, l.scores ++ [some r.score]⟩)))
  ++ ((right.filter (fun r => !(left.any (fun l => keyAgree useCls l r)))).map
      (fun r => ⟨r.name, rightCls useCls accHasCls r,
                 List.replicate nSubj none ++ [some r.score]⟩))

/-- State of the merge fold: accumulated table (none before the first
non-skipped subject), the `has_class_column` flag, and the per-merge-step
record of whether the join used the class key. -/
structure MergeSt where
  acc : Option TotalDF
  flag : Bool
  keyLog : List Bool
deriving DecidableEq, Repr

/-- One iteration of the merge loop shared by `analyze_school_total_score`
(lines 583-643) and `calculate_class_assessment` (lines 1092-1129):
skip empty tables before touching the flag; update the flag from the
original table; skip tables with no valid score after cleanup; otherwise
initialise or outer-join.  The join uses `姓名, 班级` exactly when the
flag is set and the accumulated frame still has a `班级` column (the
subject frame always has one by construction). -/
def procOne (st : MergeSt) (entry : String × SubjectDF) : MergeSt :=
  if entry.2.rows = [] then st
  else
    let flag2 := st.flag || entry.2.hasCls
    let cleaned := cleanTable entry.2
    if cleaned = [] then ⟨st.acc, flag2, st.keyLog⟩
    else
      match st.acc with
      | none =>
          ⟨some ⟨true, false, [entry.1],
             cleaned.map (fun r => ⟨r.name, some r.cls, [some r.score]⟩)⟩,
           flag2, st.keyLog⟩
      | some T =>
          let useCls := flag2 && T.hasCls
          let rows2 := outerMerge useCls T.hasCls T.subjCols.length T.rows cleaned
          ⟨some ⟨(if useCls then true else !T.hasCls),
                 (T.stray || (!useCls && T.hasCls)),
                 T.subjCols ++ [entry.1], rows2⟩,
           flag2, st.keyLog ++ [useCls]⟩

/-- The whole merge loop over the subject mapping (iterated in insertion
order, as a Python dict). -/
def mergeTables (tables : List (String × SubjectDF)) : MergeSt :=
  tables.foldl procOne ⟨none, false, []⟩

/-!
## Pass-Line analysis (`analyze_school_total_score`, lines 547-778)
-/

/-- Column filter for the total-score sum (lines 651-655): drop `姓名`,
`班级` and any column containing `总分`. -/
def passCol (c : String) : Bool :=
  decide (c ≠ "姓名") && decide (c ≠ "班级") && !containsZF c

/-- Row total for the pass-line path: skip-null sum over the retained
subject columns (line 658, `sum(axis=1, skipna=True)`). -/
def rowTotalPass (cols : List String) (r : TRow) : ℚ :=
  (((cols.zip r.scores).filter (fun p => passCol p.1)).map
    (fun p => p.2.getD 0)).sum

/-- Post-hoc filter keeping rows with positive total (line 662; the
`notna` conjunct is vacuous since a skip-null sum is never null). -/
def passFiltered (T : TotalDF) : List TRow :=
  T.rows.filter (fun r => decide (0 < rowTotalPass T.subjCols r))

/-- Mean of a list of rationals (division by zero yields zero, matching
the guarded uses in the source; the unguarded uses are unreachable). -/
def meanQ (l : List ℚ) : ℚ := l.sum / l.length

def maxQ : List ℚ → ℚ
  | [] => 0
  | x :: xs => xs.foldl max x

def minQ : List ℚ → ℚ
  | [] => 0
  | x :: xs => xs.foldl min x

/-- Median in the pandas sense: middle element of the sorted list, or the
average of the two middle elements. -/
def medianQ (l : List ℚ) : ℚ :=
  let s := (sortByDesc id l).reverse
  let n := l.length
  if n = 0 then 0
  else if n % 2 = 1 then (s.get? (n / 2)).getD 0
  else ((s.get? (n / 2 - 1)).getD 0 + (s.get? (n / 2)).getD 0) / 2

/-- Square of the sample standard deviation (ddof = 1).  The source
reports its square root; no verified claim constrains the nonzero case,
and the square is zero exactly when the standard deviation is. -/
def stdSqQ (l : List ℚ) : ℚ :=
  if l.length ≤ 1 then 0
  else (l.map (fun x => (x - meanQ l) ^ 2)).sum / (l.length - 1 : ℕ)

/-- The `astype(str).str.strip()` view of a class cell: a null prints as
the string `nan`. -/
def classKey (r : TRow) : String := pyStrip (r.cls.getD "nan")

/-- The valid-class list of a merged table (lines 717-721 / 1185-1188):
drop nulls, keep values whose stripped form is non-empty and whose raw
form is not `nan`, deduplicate in order of appearance; each loop
iteration then strips the value and skips `''`/`'nan'` again. -/
def classesOf (rows : List TRow) : List String :=
  ((uniqueFirst ((rows.filterMap (fun r => r.cls)).filter
      (fun s => decide (pyStrip s ≠ "") && decide (s ≠ "nan")))).map
    pyStrip).filter (fun t => decide (t ≠ "") && decide (t ≠ "nan"))

structure ClassLineStat where
  class_name : String
  total_students : Nat
  passed_count : Nat
  pass_rate : ℚ
  average_score : ℚ
  passed_avg_score : ℚ
deriving DecidableEq, Repr

/-- Per-class pass statistics for one score line (lines 714-749), sorted
descending by pass rate. -/
def lineClassStats (cols : List String) (rows : List TRow) (L : ℚ) :
    List ClassLineStat :=
  sortByDesc (fun c => c.pass_rate)
    ((classesOf rows).map (fun cn =>
      let cdf := rows.filter (fun r => decide (classKey r = cn))
      let cp := cdf.filter (fun r => decide (L ≤ rowTotalPass cols r))
      { class_name := cn
        total_students := cdf.length
        passed_count := cp.length
        pass_rate := pyRound2 (if 0 < cdf.length then
          (cp.length : ℚ) / cdf.length * 100 else 0)
        average_score := pyRound2 (if 0 < cdf.length then
          meanQ (cdf.map (rowTotalPass cols)) else 0)
        passed_avg_score := pyRound2 (if 0 < cp.length then
          meanQ (cp.map (rowTotalPass cols)) else 0) }))

/-- Class distribution of the passed students (lines 759-774), as the
counting function of the resulting dictionary. -/
def lineClassDist (cols : List String) (rows : List TRow) (L : ℚ) :
    String → Nat := fun c =>
  if c ≠ "" ∧ c ≠ "nan" then
    ((rows.filter (fun r => decide (L ≤ rowTotalPass cols r))).filter
      (fun r => decide (r.cls ≠ none) && decide (classKey r = c))).length
  else 0

structure LineResult where
  score_line : ℚ
  total_students : Nat
  average_score : ℚ
  max_score : ℚ
  min_score : ℚ
  median_score : ℚ
  std_sq : ℚ
  passed_count : Nat
  pass_rate : ℚ
  passed_avg_score : ℚ
  not_passed_count : Nat
  not_passed_avg_score : ℚ
  class_stats : List ClassLineStat
  class_distribution : String → Nat

/-- The per-line block of `analyze_school_total_score`
(lines 676-776), evaluated on the filtered merged table. -/
def lineStats (hasCls : Bool) (cols : List String) (rows : List TRow)
    (L : ℚ) : LineResult :=
  let totals := rows.map (rowTotalPass cols)
  let n := rows.length
  let passedRows := rows.filter (fun r => decide (L ≤ rowTotalPass cols r))
  let notPassedRows := rows.filter (fun r => decide (rowTotalPass cols r < L))
  let pc := passedRows.length
  let npc := notPassedRows.length
  { score_line := L
    total_students := n
    average_score := pyRound2 (meanQ totals)
    max_score := pyRound2 (maxQ totals)
    min_score := pyRound2 (minQ totals)
    median_score := pyRound2 (medianQ totals)
    std_sq := stdSqQ totals
    passed_count := pc
    pass_rate := pyRound2 (if 0 < n then (pc : ℚ) / n * 100 else 0)
    passed_avg_score := pyRound2 (if 0 < pc then
      meanQ (passedRows.map (rowTotalPass cols)) else 0)
    not_passed_count := npc
    not_passed_avg_score := pyRound2 (if 0 < npc then
      meanQ (notPassedRows.map (rowTotalPass cols)) else 0)
    class_stats := if hasCls then lineClassStats cols rows L else []
    class_distribution := if hasCls then lineClassDist cols rows L
      else fun _ => 0 }

/-- `analyze_school_total_score` (lines 547-778): merge, total, filter to
positive totals, then one `LineResult` per requested score line (the
result dictionary keyed `line_{line}` is modelled as a pair list). -/
def analyzeSchoolTotalScore (tables : List (String × SubjectDF))
    (lines : List ℚ) : List (ℚ × LineResult) :=
  if tables = [] then []
  else match (mergeTables tables).acc with
  | none => []
  | some T =>
      if T.rows = [] then []
      else
        let filtered := passFiltered T
        if filtered = [] then []
        else lines.map (fun L => (L, lineStats T.hasCls T.subjCols filtered L))

/-!
## Class assessment (`calculate_class_assessment`, lines 1072-1223)
-/

structure ExcludedE where
  name : String
  cls : String
  reason : String
deriving DecidableEq, Repr

/-- The `str(row.get('班级', '')).strip()` view of a class cell: empty
string when the column is absent, the string `nan` for a null. -/
def exCls (hasCls : Bool) (r : TRow) : String :=
  if hasCls then pyStrip (r.cls.getD "nan") else ""

def mkExcluded (hasCls : Bool) (r : TRow) (reason : String) : ExcludedE :=
  ⟨pyStrip r.name, exCls hasCls r, reason⟩

/-- Non-key columns of the merged table (`col not in ['姓名','班级']`). -/
def assessSubjCol (c : String) : Bool :=
  decide (c ≠ "姓名") && decide (c ≠ "班级")

/-- A pre-existing total column: non-key and containing `总分`
(lines 1135-1138). -/
def assessZFCol (c : String) : Bool := assessSubjCol c && containsZF c

/-- The non-key values of a merged row, in column order. -/
def rowSubjVals (cols : List String) (r : TRow) : List (Option ℚ) :=
  ((cols.zip r.scores).filter (fun p => assessSubjCol p.1)).map
    (fun p => p.2)

/-- `notna().all(axis=1)` over the non-key columns (line 1163). -/
def rowAllPresent (cols : List String) (r : TRow) : Bool :=
  (rowSubjVals cols r).all (fun v => v.isSome)

/-- Row total for the assessment path without a pre-existing total
column: plain sum of the (all-present) non-key values (line 1178). -/
def rowTotalAssess (cols : List String) (r : TRow) : ℚ :=
  ((rowSubjVals cols r).map (fun v => v.getD 0)).sum

/-- The validity split of `calculate_class_assessment`
(lines 1134-1178): with a pre-existing `总分` column, drop rows whose
coerced total is null or nonpositive; otherwise drop rows missing any
subject value, then total by summation.  Returns the surviving rows with
their totals, and the excluded-student records. -/
def assessInvalid (i : Nat) (r : TRow) : Bool :=
  match r.scores.getD i none with
  | none => true
  | some q => decide (q ≤ 0)

def assessSplit (T : TotalDF) : List (TRow × ℚ) × List ExcludedE :=
  match T.subjCols.findIdx? assessZFCol with
  | some i =>
      ((T.rows.filter (fun r => !assessInvalid i r)).map
         (fun r => (r, (r.scores.getD i none).getD 0)),
       (T.rows.filter (fun r => assessInvalid i r)).map
         (fun r => mkExcluded T.hasCls r "总分缺失或为0"))
  | none =>
      if T.subjCols.filter assessSubjCol = [] then ([], [])
      else
        ((T.rows.filter (fun r => rowAllPresent T.subjCols r)).map
           (fun r => (r, rowTotalAssess T.subjCols r)),
         (T.rows.filter (fun r => !rowAllPresent T.subjCols r)).map
           (fun r => mkExcluded T.hasCls r "存在缺考或成绩缺失"))

structure ClassResult where
  class_name : String
  total_students : Nat
  tekong_passed : Nat
  tekong_rate : ℚ
  yiduan_passed : Nat
  yiduan_rate : ℚ
  assessment_score : ℚ
  rank : Nat
deriving DecidableEq, Repr

/-- One class entry (lines 1190-1215): pass counts at the two lines,
rates, and the weighted composite `0.3 * tekong_rate + 0.7 * yiduan_rate`
computed from the unrounded rates; stored rates and score are rounded to
two decimals.  `rank` is filled in after sorting. -/
def mkClassResult (tk yd : ℚ) (valid : List (TRow × ℚ)) (cn : String) :
    ClassResult :=
  let cdf := valid.filter (fun p => decide (classKey p.1 = cn))
  let n := cdf.length
  let tp := (cdf.filter (fun p => decide (tk ≤ p.2))).length
  let yp := (cdf.filter (fun p => decide (yd ≤ p.2))).length
  let tr : ℚ := if 0 < n then (tp : ℚ) / n * 100 else 0
  let yr : ℚ := if 0 < n then (yp : ℚ) / n * 100 else 0
  ⟨cn, n, tp, pyRound2 tr, yp, pyRound2 yr,
   pyRound2 (3 / 10 * tr + 7 / 10 * yr), 0⟩

/-- The unsorted class-result list, in first-appearance class order. -/
def classResultsPre (tk yd : ℚ) (valid : List (TRow × ℚ)) :
    List ClassResult :=
  (classesOf (valid.map (fun p => p.1))).map (mkClassResult tk yd valid)

/-- Dense 1-based rank assignment after the sort (lines 1221-1222). -/
def rankAssign (l : List ClassResult) : List ClassResult :=
  l.enum.map (fun p => { p.2 with rank := p.1 + 1 })

/-- `calculate_class_assessment` (lines 1072-1223). -/
def calculateClassAssessment (tables : List (String × SubjectDF))
    (tk yd : ℚ) : List ClassResult × List ExcludedE :=
  match (mergeTables tables).acc with
  | none => ([], [])
  | some T =>
      if T.rows = [] then ([], [])
      else if (assessSplit T).1 = [] ∨ T.hasCls = false then
        ([], (assessSplit T).2)
      else
        (rankAssign (sortByDesc (fun c => c.assessment_score)
           (classResultsPre tk yd (assessSplit T).1)), (assessSplit T).2)

/-!
## Per-subject analysis (`analyze_school_scores`, lines 361-437)
-/

structure ClassBasic where
  count : Nat
  average : ℚ
  maxv : ℚ
  minv : ℚ
deriving DecidableEq, Repr

structure SubjStats where
  total_students : Nat
  average_score : ℚ
  max_score : ℚ
  min_score : ℚ
  median_score : ℚ
  std_sq : ℚ
  class_stats : List (String × ClassBasic)
deriving DecidableEq, Repr

/-- The all-zero entry returned for an empty subject table
(lines 377-389). -/
def zeroSubjStats : SubjStats := ⟨0, 0, 0, 0, 0, 0, []⟩

/-- Statistics of one subject table (lines 376-435): the zero record for
an empty table, else row count plus null-skipping column statistics and a
per-class breakdown keyed by raw class label. -/
def subjStats (df : SubjectDF) : SubjStats :=
  if df.rows = [] then zeroSubjStats
  else
    let vals := df.rows.filterMap (fun r => r.score)
    let cstats := if df.hasCls then
        (uniqueFirst (df.rows.map (fun r => r.cls))).map (fun cn =>
          let cv := (df.rows.filter (fun r => decide (r.cls = cn))).filterMap
            (fun r => r.score)
          (cn, ClassBasic.mk
            (df.rows.filter (fun r => decide (r.cls = cn))).length
            (pyRound2 (meanQ cv)) (pyRound2 (maxQ cv)) (pyRound2 (minQ cv))))
      else []
    ⟨df.rows.length, meanQ vals, maxQ vals, minQ vals, medianQ vals,
     stdSqQ vals, cstats⟩

/-- `analyze_school_scores` (lines 361-437): one entry per subject, in
dictionary order; empty tables produce the zero record rather than being
dropped. -/
def analyzeSchoolScores (tables : List (String × SubjectDF)) :
    List (String × SubjStats) :=
  tables.map (fun t => (t.1, subjStats t.2))

/-!
## Wide-single-table subject detection (`read_school_data`, lines 65-77)
-/

/-- Headers never treated as subjects (line 70). -/
def reservedCols : List String := ["班级", "姓名", "学号", "得分", "分数", "成绩"]

/-- Columns of the wide layout: header paired with the
numeric-coercion outcome of each cell (`none` = not numeric-coercible). -/
def wideSubjectCols (cols : List (String × List (Option ℚ))) :
    List String :=
  (cols.drop 5).filterMap (fun c =>
    let h := pyStrip c.1
    if h = "" ∨ pyStartsWith h "Unnamed:" ∨ h ∈ reservedCols then none
    else if 2 * (c.2.filter (fun v => v.isSome)).length > c.2.length
    then some h else none)

/-!
## School-from-league extraction (`build_school_data_from_league`,
lines 191-283)
-/

/-- The fixed closed subject list of the league reader (line 239). -/
def leagueSubjects : List String :=
  ["语文", "数学", "英语", "物理", "化学", "生物", "政治", "历史", "地理"]

structure LRow where
  school : String
  name : String
  cls : String
  scores : List (Option ℚ)
deriving DecidableEq, Repr

structure LeagueDF where
  hasSchool : Bool
  hasName : Bool
  hasCls : Bool
  subjCols : List String
  rows : List LRow
deriving DecidableEq, Repr

/-- `build_school_data_from_league` as shipped in `src`: it takes a
single school-name string, performs exact filtering on the `学校` column
and reshapes the matching rows into per-subject tables.  It never raises:
every degenerate input (empty league, empty name, missing school column,
no matching row, no subject column, all subjects empty) yields an empty
mapping with only a logged warning. -/
def buildSchoolDataFromLeague (league : LeagueDF) (schoolName : String) :
    List (String × List SRowC) :=
  if league.rows = [] then []
  else if schoolName = "" then []
  else if !league.hasSchool then []
  else
    let schoolRows := league.rows.filter (fun r => decide (r.school = schoolName))
    if schoolRows = [] then []
    else
      (leagueSubjects.filter (fun s => s ∈ league.subjCols)).filterMap
        (fun s =>
          let i := league.subjCols.indexOf s
          let rowsS := schoolRows.filterMap (fun r =>
            match r.scores.getD i none with
            | none => none
            | some q => some (SRowC.mk
                (if league.hasName then pyStrip r.name else "")
                (if league.hasCls then pyStrip r.cls else "") q))
          if rowsS = [] then none else some (s, rowsS))

/-!
## General list lemmas
-/

theorem pyRound2_zero : pyRound2 0 = 0 := by simp [pyRound2]

theorem filter_partition_le_lt {α : Type} (f : α → ℚ) (L : ℚ) (l : List α) :
    (l.filter (fun a => decide (L ≤ f a))).length
      + (l.filter (fun a => decide (f a < L))).length = l.length := by
  induction l with
  | nil => simp
  | cons x xs ih =>
      by_cases h : L ≤ f x
      · simp only [List.filter_cons, decide_eq_true_eq, if_pos h,
          if_neg (not_lt.mpr h)]
        simp only [List.length_cons]
        omega
      · simp only [List.filter_cons, decide_eq_true_eq, if_neg h,
          if_pos (not_le.mp h)]
        simp only [List.length_cons]
        omega

theorem length_filter_mono {α : Type} (p q : α → Bool) (l : List α)
    (h : ∀ a ∈ l, p a = true → q a = true) :
    (l.filter p).length ≤ (l.filter q).length := by
  induction l with
  | nil => simp
  | cons x xs ih =>
      have ih2 := ih (fun a ha => h a (List.mem_cons_of_mem x ha))
      by_cases hp : p x = true
      · rw [List.filter_cons_of_pos hp,
          List.filter_cons_of_pos (h x (List.mem_cons_self x xs) hp)]
        simpa using ih2
      · rw [List.filter_cons_of_neg (by simpa using hp)]
        by_cases hq : q x = true
        · rw [List.filter_cons_of_pos hq]
          exact le_trans ih2 (by simp)
        · rw [List.filter_cons_of_neg (by simpa using hq)]
          exact ih2

/-!
## Claim theorems
-/

/-- C1: in total-score mode, for every merged student table and every
score line `L`, `passed_count` is the number of students with total `≥ L`,
`not_passed_count` the number with total `< L`, the two add up to
`total_students`, and `pass_rate` is `passed_count / total_students * 100`
rounded to two decimals, with `pass_rate = 0` (and no exception) when
`total_students` is zero. -/
theorem c1_pass_line_counts (hasCls : Bool) (cols : List String)
    (rows : List TRow) (L : ℚ) :
    (lineStats hasCls cols rows L).passed_count
        = rows.countP (fun r => decide (L ≤ rowTotalPass cols r))
      ∧ (lineStats hasCls cols rows L).not_passed_count
        = rows.countP (fun r => decide (rowTotalPass cols r < L))
      ∧ (lineStats hasCls cols rows L).passed_count
          + (lineStats hasCls cols rows L).not_passed_count
        = (lineStats hasCls cols rows L).total_students
      ∧ (lineStats hasCls cols rows L).pass_rate
        = (if (lineStats hasCls cols rows L).total_students = 0 then 0
           else pyRound2 (((lineStats hasCls cols rows L).passed_count : ℚ)
             / ((lineStats hasCls cols rows L).total_students : ℚ) * 100)) := by
  refine ⟨?_, ?_, ?_, ?_⟩
  · simp [lineStats, List.countP_eq_length_filter]
  · simp [lineStats, List.countP_eq_length_filter]
  · simpa [lineStats] using
      filter_partition_le_lt (rowTotalPass cols) L rows
  · by_cases h : rows.length = 0
    · simp [lineStats, h, pyRound2_zero]
    · simp [lineStats, h, Nat.pos_of_ne_zero h]

/-- C7: for a fixed merged total-score table, the pass rate is
monotonically non-increasing in the score line. -/
theorem c7_pass_rate_antitone (hasCls : Bool) (cols : List String)
    (rows : List TRow) {L1 L2 : ℚ} (h : L1 ≤ L2) :
    (lineStats hasCls cols rows L2).pass_rate
      ≤ (lineStats hasCls cols rows L1).pass_rate := by
  have hcount : (rows.filter (fun r => decide (L2 ≤ rowTotalPass cols r))).length
      ≤ (rows.filter (fun r => decide (L1 ≤ rowTotalPass cols r))).length := by
    refine length_filter_mono _ _ rows (fun a _ hp => ?_)
    simp only [decide_eq_true_eq] at hp ⊢
    linarith
  simp only [lineStats]
  apply pyRound2_mono
  by_cases hn : 0 < rows.length
  · simp only [if_pos hn]
    have hn0 : (0 : ℚ) < rows.length := by exact_mod_cast hn
    have : ((rows.filter (fun r => decide (L2 ≤ rowTotalPass cols r))).length : ℚ)
        ≤ ((rows.filter (fun r => decide (L1 ≤ rowTotalPass cols r))).length : ℚ) := by
      exact_mod_cast hcount
    gcongr
  · simp [if_neg hn]

/-- Witness for C7 at a concrete table and pair of lines. -/
theorem c7_witness :
    (1 : ℚ) ≤ 2 ∧
    (lineStats true ["数学"] [⟨"a", some "1", [some (3 : ℚ)]⟩] 2).pass_rate
      ≤ (lineStats true ["数学"] [⟨"a", some "1", [some (3 : ℚ)]⟩] 1).pass_rate :=
  ⟨by norm_num,
   c7_pass_rate_antitone true ["数学"] [⟨"a", some "1", [some (3 : ℚ)]⟩]
     (by norm_num)⟩

/-- A subject table with no rows contributes nothing to the merge
state. -/
theorem procOne_empty_rows (st : MergeSt) (entry : String × SubjectDF)
    (h : entry.2.rows = []) : procOne st entry = st := by
  simp [procOne, h]

theorem mergeTables_all_empty (tables : List (String × SubjectDF))
    (h : ∀ t ∈ tables, t.2.rows = []) :
    mergeTables tables = ⟨none, false, []⟩ := by
  unfold mergeTables
  induction tables with
  | nil => rfl
  | cons t ts ih =>
      rw [List.foldl_cons, procOne_empty_rows _ t (h t (List.mem_cons_self t ts))]
      exact ih (fun u hu => h u (List.mem_cons_of_mem t hu))

/-- C8: zero-student inputs never raise.  An empty subject table yields a
per-subject entry with every statistic equal to zero and empty
`class_stats` (the key is present); total-score analysis over zero
students returns an empty result mapping (so every rate in it is
vacuously zero, with no exception), and the guarded per-line rate and
average expressions all evaluate to zero on an empty table. -/
theorem c8_zero_student_inputs :
    (∀ tables : List (String × SubjectDF), ∀ i : Nat,
       ∀ t : String × SubjectDF, tables[i]? = some t → t.2.rows = [] →
       (analyzeSchoolScores tables)[i]? = some (t.1, zeroSubjStats))
  ∧ (∀ tables : List (String × SubjectDF), ∀ lines : List ℚ,
       (∀ t ∈ tables, t.2.rows = []) →
       analyzeSchoolTotalScore tables lines = [])
  ∧ (∀ (hasCls : Bool) (cols : List String) (L : ℚ),
       (lineStats hasCls cols [] L).pass_rate = 0
       ∧ (lineStats hasCls cols [] L).passed_avg_score = 0
       ∧ (lineStats hasCls cols [] L).not_passed_avg_score = 0) := by
  refine ⟨?_, ?_, ?_⟩
  · intro tables i t ht hrows
    simp only [analyzeSchoolScores, List.getElem?_map, ht, Option.map_some]
    simp [subjStats, hrows]
  · intro tables lines h
    unfold analyzeSchoolTotalScore
    rcases tables with _ | ⟨t, ts⟩
    · simp
    · rw [if_neg (by simp)]
      rw [mergeTables_all_empty _ h]
  · intro hasCls cols L
    refine ⟨?_, ?_, ?_⟩ <;> simp [lineStats, pyRound2_zero]

/-- Witness for C8 at concrete empty inputs. -/
theorem c8_witness :
    (analyzeSchoolScores [("数学", ⟨true, []⟩)])[0]?
        = some ("数学", zeroSubjStats)
    ∧ analyzeSchoolTotalScore [("数学", ⟨true, []⟩)] [500] = [] :=
  ⟨c8_zero_student_inputs.1 [("数学", ⟨true, []⟩)] 0 ("数学", ⟨true, []⟩)
     (by rfl) (by rfl),
   c8_zero_student_inputs.2.1 [("数学", ⟨true, []⟩)] [500]
     (by intro t ht; simp at ht; rw [ht]) ⟩

/-- The claim C9 reading of the wide-format subject rule, with an
`at least 50%` numeric threshold (spec wording; compare
`wideSubjectCols`, which translates the source). -/
def claimWideSubjectCols (cols : List (String × List (Option ℚ))) :
    List String :=
  (cols.drop 5).filterMap (fun c =>
    let h := pyStrip c.1
    if (h ≠ "" ∧ ¬ pyStartsWith h "Unnamed:" ∧ h ∉ reservedCols)
        ∧ 2 * (c.2.filter (fun v => v.isSome)).length ≥ c.2.length
    then some h else none)

/-- The amended C9 rule: identical except that strictly more than 50% of
the values must be numeric-coercible (`numeric_count > len * 0.5`,
line 76). -/
def amendedWideSubjectCols (cols : List (String × List (Option ℚ))) :
    List String :=
  (cols.drop 5).filterMap (fun c =>
    let h := pyStrip c.1
    if (h ≠ "" ∧ ¬ pyStartsWith h "Unnamed:" ∧ h ∉ reservedCols)
        ∧ 2 * (c.2.filter (fun v => v.isSome)).length > c.2.length
    then some h else none)

/-- C9 counterexample: a sixth column with a valid header whose values
are exactly 50% numeric-coercible.  The claim (threshold `≥ 50%`) makes
it a subject column, but the source (`numeric_count > len * 0.5`)
rejects it. -/
theorem c9_counterexample :
    wideSubjectCols
        [("a", []), ("b", []), ("c", []), ("d", []), ("e", []),
         ("数学", [some (1 : ℚ), some 2, none, none])] = []
    ∧ claimWideSubjectCols
        [("a", []), ("b", []), ("c", []), ("d", []), ("e", []),
         ("数学", [some (1 : ℚ), some 2, none, none])] = ["数学"] := by
  constructor <;> decide

/-- C9 amended: a column at index 6 or later with a non-empty,
non-placeholder, non-reserved header is treated as a subject column if
and only if strictly more than 50% of its values are numeric-coercible. -/
theorem c9_wide_subject_threshold (cols : List (String × List (Option ℚ))) :
    wideSubjectCols cols = amendedWideSubjectCols cols := by
  unfold wideSubjectCols amendedWideSubjectCols
  apply List.filterMap_congr
  intro c _
  by_cases h1 : pyStrip c.1 = "" ∨ pyStartsWith (pyStrip c.1) "Unnamed:"
      ∨ pyStrip c.1 ∈ reservedCols
  · rw [if_pos h1, if_neg]
    rintro ⟨⟨hne, hpl, hmem⟩, -⟩
    rcases h1 with h | h | h
    · exact hne h
    · exact hpl h
    · exact hmem h
  · push_neg at h1
    rw [if_neg (by tauto)]
    by_cases h2 : 2 * (c.2.filter (fun v => v.isSome)).length > c.2.length
    · rw [if_pos h2, if_pos ⟨⟨h1.1, h1.2.1, h1.2.2⟩, h2⟩]
    · rw [if_neg h2, if_neg (by tauto)]

/-- C6: evaluation of `build_school_data_from_league` (as shipped in
`src/data_processor.py`) at the inputs where the claim requires a
`NotFoundError`: an unmatched school name and an empty name both return
an empty mapping without raising.  (The not-found error described by the
spec lives in the newer `data_processor` interface that `app.py` is
written against: `app.py` imports `sort_subjects`, `SUBJECT_COLUMNS` and
`analyze_league_subject_lines`, none of which the shipped module defines,
and passes a list of names where this function takes one string.) -/
theorem c6_build_from_league_never_raises :
    buildSchoolDataFromLeague
        ⟨true, true, true, ["语文"],
         [⟨"A", "n1", "c1", [some 50]⟩, ⟨"B", "n2", "c2", [some 60]⟩]⟩
        "C" = []
    ∧ buildSchoolDataFromLeague
        ⟨true, true, true, ["语文"],
         [⟨"A", "n1", "c1", [some 50]⟩, ⟨"B", "n2", "c2", [some 60]⟩]⟩
        "" = []
    ∧ buildSchoolDataFromLeague
        ⟨true, true, true, ["语文"],
         [⟨"A", "n1", "c1", [some 50]⟩, ⟨"B", "n2", "c2", [some 60]⟩]⟩
        "A" = [("语文", [⟨"n1", "c1", 50⟩])] := by
  refine ⟨by decide, by decide, by decide⟩

/-- The join-key recurrence of the merge loop, on the has-class flags of
the incoming tables alone: `flag` accumulates whether any original table
so far had a class column, `present` tracks whether the accumulated frame
still has one (a name-only join destroys it by suffix renaming when both
sides have it, and reintroduces it from the right side otherwise). -/
def predictKeysGo (flag present : Bool) : List Bool → List Bool
  | [] => []
  | b :: rest =>
      let flag2 := flag || b
      let use := flag2 && present
      use :: predictKeysGo flag2 (if use then true else !present) rest

/-- Join keys predicted for a table list from its class-column flags. -/
def predictKeys : List Bool → List Bool
  | [] => []
  | b :: rest => predictKeysGo b true rest

/-- C4 counterexample: two subject tables, neither with an original class
column.  After processing the first table the accumulated frame carries a
materialized `班级` column (holding empty strings), and the subject frame
always carries one — yet the merge step joins on `姓名` alone
(`keyLog = [false]`), because the `has_class_column` flag is still
false.  The claimed rule (class key exactly when both sides carry a class
column) predicts a join on `姓名, 班级` here. -/
theorem c4_counterexample :
    (mergeTables
       [("数学", ⟨false, [⟨"Ann", "", some 70⟩]⟩),
        ("英语", ⟨false, [⟨"Ann", "", some 80⟩]⟩)]).keyLog = [false]
    ∧ (mergeTables [("数学", ⟨false, [⟨"Ann", "", some 70⟩]⟩)]).acc.map
        TotalDF.hasCls = some true := by
  constructor <;> decide

theorem foldl_keyLog (ts : List (String × SubjectDF)) (T : TotalDF)
    (flag : Bool) (log : List Bool)
    (h : ∀ t ∈ ts, cleanTable t.2 ≠ []) :
    (ts.foldl procOne ⟨some T, flag, log⟩).keyLog
      = log ++ predictKeysGo flag T.hasCls (ts.map (fun t => t.2.hasCls)) := by
  induction ts generalizing T flag log with
  | nil => simp [predictKeysGo]
  | cons t ts ih =>
      have hct : cleanTable t.2 ≠ [] := h t (List.mem_cons_self t ts)
      have hrows : ¬ t.2.rows = [] := by
        intro hr
        exact hct (by simp [cleanTable, hr])
      simp only [List.foldl_cons, procOne, if_neg hrows, if_neg hct]
      rw [ih _ _ _ (fun u hu => h u (List.mem_cons_of_mem t hu))]
      simp [predictKeysGo, List.append_assoc]

/-- C4 amended: each subsequent subject table is outer-joined on
`姓名, 班级` exactly when the `has_class_column` flag (some table
processed so far had an original class column) is set AND the accumulated
frame still carries a `班级` column; since the materialized class column
can be suffixed away by a name-only join and reintroduced by the next,
the full key sequence is the `predictKeys` recurrence on the tables'
class-column flags — not the claimed `both sides currently carry a class
column` rule, which both sides always satisfy at the first join. -/
theorem c4_join_keys (tables : List (String × SubjectDF))
    (h : ∀ t ∈ tables, cleanTable t.2 ≠ []) :
    (mergeTables tables).keyLog
      = predictKeys (tables.map (fun t => t.2.hasCls)) := by
  unfold mergeTables
  rcases tables with _ | ⟨t, ts⟩
  · rfl
  · have hct : cleanTable t.2 ≠ [] := h t (List.mem_cons_self t ts)
    have hrows : ¬ t.2.rows = [] := by
      intro hr
      exact hct (by simp [cleanTable, hr])
    simp only [List.foldl_cons, procOne, if_neg hrows, if_neg hct]
    rw [foldl_keyLog _ _ _ _ (fun u hu => h u (List.mem_cons_of_mem t hu))]
    simp [predictKeys]

/-- Witness for C4 amended at a concrete two-table input. -/
theorem c4_join_keys_witness :
    (∀ t ∈ [(("数学" : String), SubjectDF.mk true [⟨"Ann", "1", some 70⟩]),
            (("英语" : String), SubjectDF.mk true [⟨"Ann", "1", some 80⟩])],
       cleanTable t.2 ≠ [])
    ∧ (mergeTables
        [("数学", SubjectDF.mk true [⟨"Ann", "1", some 70⟩]),
         ("英语", SubjectDF.mk true [⟨"Ann", "1", some 80⟩])]).keyLog
      = predictKeys [true, true] :=
  ⟨by decide,
   c4_join_keys
     [("数学", SubjectDF.mk true [⟨"Ann", "1", some 70⟩]),
      ("英语", SubjectDF.mk true [⟨"Ann", "1", some 80⟩])] (by decide)⟩

/-!
## Enumeration helper lemmas for the rank assignment
-/

theorem enum_eq_enumFrom {α : Type} (l : List α) :
    l.enum = List.enumFrom 0 l := rfl

theorem snd_mem_enumFrom {α : Type} {q : Nat × α} {k : Nat} {l : List α}
    (h : q ∈ List.enumFrom k l) : q.2 ∈ l := by
  induction l generalizing k with
  | nil => simp at h
  | cons x xs ih =>
      rw [List.enumFrom_cons] at h
      rcases List.mem_cons.mp h with rfl | h
      · exact List.mem_cons_self _ _
      · exact List.mem_cons_of_mem _ (ih h)

theorem enumFrom_pairwise {α : Type} {R : α → α → Prop} (l : List α)
    (k : Nat) (h : l.Pairwise R) :
    (List.enumFrom k l).Pairwise (fun p q => R p.2 q.2) := by
  induction l generalizing k with
  | nil => simp
  | cons x xs ih =>
      rw [List.enumFrom_cons]
      rcases List.pairwise_cons.mp h with ⟨hx, hxs⟩
      refine List.pairwise_cons.mpr ⟨?_, ih (k + 1) hxs⟩
      intro q hq
      exact hx q.2 (snd_mem_enumFrom hq)

theorem enumFrom_filter_snd_map {α β : Type} (p : α → Bool) (g : α → β)
    (l : List α) (k : Nat) :
    ((List.enumFrom k l).filter (fun q => p q.2)).map (fun q => g q.2)
      = (l.filter p).map g := by
  induction l generalizing k with
  | nil => simp
  | cons x xs ih =>
      rw [List.enumFrom_cons]
      by_cases hx : p x = true
      · simp [List.filter_cons, hx, ih]
      · simp [List.filter_cons, hx, ih]

theorem enumFrom_map_fst_succ {α : Type} (l : List α) (k : Nat) :
    (List.enumFrom k l).map (fun q => q.1 + 1)
      = List.range' (k + 1) l.length := by
  induction l generalizing k with
  | nil => simp
  | cons x xs ih =>
      rw [List.enumFrom_cons]
      simp [List.range'_succ, ih]

/-!
## Rank-assignment lemmas
-/

theorem mem_rankAssign {l : List ClassResult} {cr : ClassResult}
    (h : cr ∈ rankAssign l) :
    ∃ cr2 ∈ l, cr.class_name = cr2.class_name
      ∧ cr.total_students = cr2.total_students
      ∧ cr.tekong_passed = cr2.tekong_passed
      ∧ cr.yiduan_passed = cr2.yiduan_passed
      ∧ cr.assessment_score = cr2.assessment_score := by
  unfold rankAssign at h
  rw [enum_eq_enumFrom] at h
  rcases List.mem_map.mp h with ⟨p, hp, rfl⟩
  exact ⟨p.2, snd_mem_enumFrom hp, rfl, rfl, rfl, rfl, rfl⟩

theorem pairwise_rankAssign {l : List ClassResult}
    (h : l.Pairwise (fun a b => b.assessment_score ≤ a.assessment_score)) :
    (rankAssign l).Pairwise
      (fun a b => b.assessment_score ≤ a.assessment_score) := by
  unfold rankAssign
  rw [enum_eq_enumFrom]
  exact List.Pairwise.map _ (fun p q hpq => hpq) (enumFrom_pairwise l 0 h)

theorem rankAssign_filter_name (l : List ClassResult) (q : ℚ) :
    ((rankAssign l).filter
        (fun c => decide (c.assessment_score = q))).map ClassResult.class_name
      = (l.filter (fun c => decide (c.assessment_score = q))).map
          ClassResult.class_name := by
  unfold rankAssign
  rw [enum_eq_enumFrom, List.filter_map, List.map_map]
  exact enumFrom_filter_snd_map (fun c => decide (c.assessment_score = q))
    ClassResult.class_name l 0

theorem rankAssign_ranks (l : List ClassResult) :
    (rankAssign l).map ClassResult.rank = List.range' 1 l.length := by
  unfold rankAssign
  rw [enum_eq_enumFrom, List.map_map]
  exact enumFrom_map_fst_succ l 0

theorem rankAssign_length (l : List ClassResult) :
    (rankAssign l).length = l.length := by
  unfold rankAssign
  rw [enum_eq_enumFrom]
  simp [List.enumFrom_length]

/-!
## Class-result construction lemmas
-/

theorem mkClassResult_formula (tk yd : ℚ) (valid : List (TRow × ℚ))
    (cn : String) :
    (mkClassResult tk yd valid cn).assessment_score
      = pyRound2 (3 / 10 *
          (if 0 < (mkClassResult tk yd valid cn).total_students then
            ((mkClassResult tk yd valid cn).tekong_passed : ℚ)
              / (mkClassResult tk yd valid cn).total_students * 100 else 0)
        + 7 / 10 *
          (if 0 < (mkClassResult tk yd valid cn).total_students then
            ((mkClassResult tk yd valid cn).yiduan_passed : ℚ)
              / (mkClassResult tk yd valid cn).total_students * 100 else 0)) :=
  rfl

theorem mkClassResult_counts_le (tk yd : ℚ) (valid : List (TRow × ℚ))
    (cn : String) :
    (mkClassResult tk yd valid cn).tekong_passed
        ≤ (mkClassResult tk yd valid cn).total_students
      ∧ (mkClassResult tk yd valid cn).yiduan_passed
        ≤ (mkClassResult tk yd valid cn).total_students :=
  ⟨List.length_filter_le _ _, List.length_filter_le _ _⟩

theorem rate_bounds (tp n : Nat) (h : tp ≤ n) :
    0 ≤ (if 0 < n then (tp : ℚ) / n * 100 else 0)
      ∧ (if 0 < n then (tp : ℚ) / n * 100 else 0) ≤ 100 := by
  by_cases hn : 0 < n
  · rw [if_pos hn]
    have hn0 : (0 : ℚ) < n := by exact_mod_cast hn
    have htp : (tp : ℚ) ≤ n := by exact_mod_cast h
    constructor
    · positivity
    · rw [div_mul_eq_mul_div, div_le_iff₀ hn0]
      nlinarith
  · rw [if_neg hn]
    norm_num

theorem mkClassResult_score_bounds (tk yd : ℚ) (valid : List (TRow × ℚ))
    (cn : String) :
    0 ≤ (mkClassResult tk yd valid cn).assessment_score
      ∧ (mkClassResult tk yd valid cn).assessment_score ≤ 100 := by
  rw [mkClassResult_formula]
  rcases mkClassResult_counts_le tk yd valid cn with ⟨h1, h2⟩
  rcases rate_bounds _ _ h1 with ⟨h1a, h1b⟩
  rcases rate_bounds _ _ h2 with ⟨h2a, h2b⟩
  exact pyRound2_mem_Icc (by linarith) (by linarith)

/-- The unsorted class-result list of `calculate_class_assessment`, in
first-appearance class order, with the degenerate early returns applied
(used to express the stability of the final sort). -/
def assessPre (tables : List (String × SubjectDF)) (tk yd : ℚ) :
    List ClassResult :=
  match (mergeTables tables).acc with
  | none => []
  | some T =>
      if T.rows = [] then []
      else if (assessSplit T).1 = [] ∨ T.hasCls = false then []
      else classResultsPre tk yd (assessSplit T).1

/-- C5: for every class-assessment input, each class result's
`assessment_score` is `0.3 * tekong_rate + 0.7 * yiduan_rate` (rates the
exact per-class pass percentages, the composite rounded to two decimals);
the results are sorted descending by `assessment_score` with a stable
sort (ties keep their pre-sort, input-relative order, stated via filters
over each score value); ranks are the dense 1-based positions `1..N`; and
every `assessment_score` lies in `[0, 100]`.  The class-column hypothesis
restricts to inputs on which the real DataFrame pipeline carries no
suffix-renamed join columns (see `TotalDF.stray`). -/
theorem c5_class_assessment (tables : List (String × SubjectDF))
    (tk yd : ℚ) (hcls : ∀ t ∈ tables, t.2.hasCls = true) :
    (∀ cr ∈ (calculateClassAssessment tables tk yd).1,
        cr.assessment_score
          = pyRound2 (3 / 10 *
              (if 0 < cr.total_students then
                (cr.tekong_passed : ℚ) / cr.total_students * 100 else 0)
            + 7 / 10 *
              (if 0 < cr.total_students then
                (cr.yiduan_passed : ℚ) / cr.total_students * 100 else 0)))
    ∧ (calculateClassAssessment tables tk yd).1.Pairwise
        (fun a b => b.assessment_score ≤ a.assessment_score)
    ∧ (∀ q : ℚ,
        ((calculateClassAssessment tables tk yd).1.filter
            (fun c => decide (c.assessment_score = q))).map
          ClassResult.class_name
        = ((assessPre tables tk yd).filter
            (fun c => decide (c.assessment_score = q))).map
          ClassResult.class_name)
    ∧ (calculateClassAssessment tables tk yd).1.map ClassResult.rank
        = List.range' 1 (calculateClassAssessment tables tk yd).1.length
    ∧ (∀ cr ∈ (calculateClassAssessment tables tk yd).1,
        0 ≤ cr.assessment_score ∧ cr.assessment_score ≤ 100) := by
  unfold calculateClassAssessment assessPre
  cases hacc : (mergeTables tables).acc with
  | none => simp
  | some T =>
      dsimp only
      by_cases hrows : T.rows = []
      · simp [hrows]
      · rw [if_neg hrows, if_neg hrows]
        by_cases hdeg : (assessSplit T).1 = [] ∨ T.hasCls = false
        · simp [hdeg]
        · rw [if_neg hdeg, if_neg hdeg]
          set pre := classResultsPre tk yd (assessSplit T).1 with hpre
          have hmem : ∀ cr ∈ rankAssign (sortByDesc
              (fun c => c.assessment_score) pre), ∃ cn,
              ∃ cr2, cr2 = mkClassResult tk yd (assessSplit T).1 cn
                ∧ cr.total_students = cr2.total_students
                ∧ cr.tekong_passed = cr2.tekong_passed
                ∧ cr.yiduan_passed = cr2.yiduan_passed
                ∧ cr.assessment_score = cr2.assessment_score := by
            intro cr hcr
            rcases mem_rankAssign hcr with ⟨cr2, hcr2, -, h1, h2, h3, h4⟩
            have : cr2 ∈ pre :=
              ((sortByDesc_perm (fun c => c.assessment_score) pre).mem_iff).mp
                hcr2
            rcases List.mem_map.mp this with ⟨cn, -, rfl⟩
            exact ⟨cn, _, rfl, h1, h2, h3, h4⟩
          refine ⟨?_, ?_, ?_, ?_, ?_⟩
          · intro cr hcr
            rcases hmem cr hcr with ⟨cn, cr2, rfl, h1, h2, h3, h4⟩
            rw [h1, h2, h3, h4]
            exact mkClassResult_formula tk yd _ cn
          · exact pairwise_rankAssign
              (sortByDesc_sorted (fun c => c.assessment_score) pre)
          · intro q
            rw [rankAssign_filter_name]
            congr 1
            exact sortByDesc_filter (fun c => c.assessment_score) pre q
          · rw [rankAssign_ranks, rankAssign_length]
          · intro cr hcr
            rcases hmem cr hcr with ⟨cn, cr2, rfl, -, -, -, h4⟩
            rw [h4]
            exact mkClassResult_score_bounds tk yd _ cn

/-- Witness for C5 at a concrete two-class input. -/
theorem c5_witness :
    (∀ t ∈ [(("数学" : String), SubjectDF.mk true
        [⟨"a", "1", some 90⟩, ⟨"b", "2", some 40⟩]),
        (("英语" : String), SubjectDF.mk true
        [⟨"a", "1", some 90⟩, ⟨"b", "2", some 50⟩])], t.2.hasCls = true)
    ∧ ((calculateClassAssessment
        [("数学", SubjectDF.mk true [⟨"a", "1", some 90⟩, ⟨"b", "2", some 40⟩]),
         ("英语", SubjectDF.mk true [⟨"a", "1", some 90⟩, ⟨"b", "2", some 50⟩])]
        150 80).1.map ClassResult.rank
      = List.range' 1 (calculateClassAssessment
        [("数学", SubjectDF.mk true [⟨"a", "1", some 90⟩, ⟨"b", "2", some 40⟩]),
         ("英语", SubjectDF.mk true [⟨"a", "1", some 90⟩, ⟨"b", "2", some 50⟩])]
        150 80).1.length) :=
  ⟨by decide,
   (c5_class_assessment
     [("数学", SubjectDF.mk true [⟨"a", "1", some 90⟩, ⟨"b", "2", some 40⟩]),
      ("英语", SubjectDF.mk true [⟨"a", "1", some 90⟩, ⟨"b", "2", some 50⟩])]
     150 80 (by decide)).2.2.2.1⟩

/-!
## Characterization of the clean merge path

When every subject table carries a class column, every join uses the
`姓名, 班级` key pair, and a merged row is determined by per-table key
lookups.  The lemmas below make this precise.
-/

/-- Score lookup of a key in a cleaned subject table (the value the
outer join places in that subject column). -/
def lookupQ (rows : List SRowC) (k : String × Option String) : Option ℚ :=
  (rows.find? (fun s => decide (keyS s = k))).map (fun s => s.score)

/-- The accumulated row extended by one subject column via lookup. -/
def extendRow (right : List SRowC) (l : TRow) : TRow :=
  ⟨l.name, l.cls, l.scores ++ [lookupQ right (keyT l)]⟩

theorem keyAgree_true_iff (l : TRow) (r : SRowC) :
    keyAgree true l r = true ↔ keyT l = keyS r := by
  simp only [keyAgree, if_true, decide_eq_true_eq, keyT, keyS, Prod.mk.injEq]

theorem lookupQ_eq_none_iff (rows : List SRowC) (k : String × Option String) :
    lookupQ rows k = none ↔ k ∉ rows.map keyS := by
  unfold lookupQ
  rw [Option.map_eq_none', List.find?_eq_none]
  constructor
  · intro h hk
    rcases List.mem_map.mp hk with ⟨s, hs, hks⟩
    exact h s hs (by simpa using hks)
  · intro h s hs hps
    rw [decide_eq_true_eq] at hps
    exact h (hps ▸ List.mem_map_of_mem keyS hs)

theorem lookupQ_self {rows : List SRowC} (hnd : (rows.map keyS).Nodup)
    {r : SRowC} (hr : r ∈ rows) : lookupQ rows (keyS r) = some r.score := by
  induction rows with
  | nil => simp at hr
  | cons s rest ih =>
      rw [List.map_cons, List.nodup_cons] at hnd
      obtain ⟨hs, hrest⟩ := hnd
      rcases List.mem_cons.mp hr with rfl | hr2
      · simp [lookupQ, List.find?_cons]
      · have hne : ¬ keyS s = keyS r := by
          intro he
          exact hs (he ▸ List.mem_map_of_mem keyS hr2)
        have hrec : lookupQ rest (keyS r) = some r.score := ih hrest hr2
        simpa [lookupQ, List.find?_cons, hne] using hrec

theorem filter_key_eq_find_toList {rows : List SRowC}
    (hnd : (rows.map keyS).Nodup) (k : String × Option String) :
    rows.filter (fun s => decide (keyS s = k))
      = (rows.find? (fun s => decide (keyS s = k))).toList := by
  induction rows with
  | nil => simp
  | cons s rest ih =>
      rw [List.map_cons, List.nodup_cons] at hnd
      obtain ⟨hs, hrest⟩ := hnd
      by_cases hk : keyS s = k
      · have hnone : rest.find? (fun s => decide (keyS s = k)) = none := by
          rw [List.find?_eq_none]
          intro x hx hpx
          rw [decide_eq_true_eq] at hpx
          apply hs
          rw [← hk] at hpx
          exact hpx ▸ List.mem_map_of_mem keyS hx
        have hfil : rest.filter (fun s => decide (keyS s = k)) = [] := by
          rw [ih hrest, hnone]
          rfl
        simp [List.filter_cons, List.find?_cons, hk, hfil]
      · simp [List.filter_cons, List.find?_cons, hk, ih hrest]

theorem any_keyAgree_iff (left : List TRow) (r : SRowC) :
    left.any (fun l => keyAgree true l r) = true ↔ keyS r ∈ left.map keyT := by
  rw [List.any_eq_true]
  constructor
  · rintro ⟨l, hl, hagree⟩
    exact ((keyAgree_true_iff l r).mp hagree) ▸ List.mem_map_of_mem keyT hl
  · intro h
    rcases List.mem_map.mp h with ⟨l, hl, hlk⟩
    exact ⟨l, hl, (keyAgree_true_iff l r).mpr hlk⟩

/-- On the class-key path, the outer join is the lookup extension of the
left rows followed by the key-new right rows. -/
theorem outerMerge_true_eq (acc : Bool) (n : Nat) (left : List TRow)
    (right : List SRowC) (hR : (right.map keyS).Nodup) :
    outerMerge true acc n left right
      = left.map (extendRow right)
        ++ ((right.filter
              (fun r => decide (keyS r ∉ left.map keyT))).map
            (fun r => ⟨r.name, some r.cls,
                       List.replicate n none ++ [some r.score]⟩)) := by
  have hpred : ∀ l : TRow,
      right.filter (fun r => keyAgree true l r)
        = right.filter (fun s => decide (keyS s = keyT l)) := by
    intro l
    apply List.filter_congr
    intro r _
    apply Bool.eq_iff_iff.mpr
    rw [keyAgree_true_iff, decide_eq_true_eq]
    exact eq_comm
  unfold outerMerge
  congr 1
  · induction left with
    | nil => simp
    | cons l ls ih =>
        rw [List.flatMap_cons, List.map_cons, ih]
        rw [hpred l, filter_key_eq_find_toList hR (keyT l)]
        cases hfind : right.find? (fun s => decide (keyS s = keyT l)) with
        | none =>
            have hlook : lookupQ right (keyT l) = none := by
              simp [lookupQ, hfind]
            simp [extendRow, hlook, leftCls]
        | some s =>
            have hlook : lookupQ right (keyT l) = some s.score := by
              simp [lookupQ, hfind]
            simp [extendRow, hlook, joinedCls, Option.toList]
  · have hc : right.filter (fun r => !(left.any (fun l => keyAgree true l r)))
        = right.filter (fun r => decide (keyS r ∉ left.map keyT)) := by
      apply List.filter_congr
      intro r _
      apply Bool.eq_iff_iff.mpr
      rw [Bool.not_eq_true', ← Bool.not_eq_true (left.any fun l => keyAgree true l r),
        any_keyAgree_iff, decide_eq_true_eq]
    rw [hc]
    apply List.map_congr_left
    intro r _
    simp [rightCls]

/-- The invariant tying the accumulated merged table to the already
processed subject tables on the clean path. -/
def MergedInv (done : List (String × SubjectDF)) (T : TotalDF) : Prop :=
  T.hasCls = true ∧ T.stray = false ∧ T.subjCols = done.map Prod.fst
  ∧ (T.rows.map keyT).Nodup
  ∧ (∀ r ∈ T.rows, r.scores
      = done.map (fun t => lookupQ (cleanTable t.2) (keyT r)))
  ∧ (∀ k, k ∈ T.rows.map keyT
      ↔ ∃ t ∈ done, k ∈ (cleanTable t.2).map keyS)

theorem mergedInv_first (t : String × SubjectDF)
    (hnd : ((cleanTable t.2).map keyS).Nodup) :
    MergedInv [t] ⟨true, false, [t.1],
      (cleanTable t.2).map (fun r => ⟨r.name, some r.cls, [some r.score]⟩)⟩ := by
  have hkeys : ((cleanTable t.2).map
      (fun r => TRow.mk r.name (some r.cls) [some r.score])).map keyT
      = (cleanTable t.2).map keyS := by
    rw [List.map_map]
    rfl
  refine ⟨rfl, rfl, rfl, ?_, ?_, ?_⟩
  · rw [hkeys]; exact hnd
  · intro r hr
    rcases List.mem_map.mp hr with ⟨s, hs, rfl⟩
    have : keyT ⟨s.name, some s.cls, [some s.score]⟩ = keyS s := rfl
    rw [List.map_cons, List.map_nil, this, lookupQ_self hnd hs]
  · intro k
    rw [hkeys]
    simp

theorem mergedInv_step (done : List (String × SubjectDF)) (T : TotalDF)
    (t : String × SubjectDF) (hInv : MergedInv done T)
    (hnd : ((cleanTable t.2).map keyS).Nodup) :
    MergedInv (done ++ [t])
      ⟨true, T.stray, T.subjCols ++ [t.1],
       outerMerge true T.hasCls T.subjCols.length T.rows (cleanTable t.2)⟩ := by
  obtain ⟨hHas, hStray, hCols, hNd, hScores, hMem⟩ := hInv
  rw [outerMerge_true_eq _ _ _ _ hnd]
  have hkeyExt : ∀ l : TRow, keyT (extendRow (cleanTable t.2) l) = keyT l :=
    fun l => rfl
  have hkeys :
      ((T.rows.map (extendRow (cleanTable t.2))
        ++ ((cleanTable t.2).filter
              (fun r => decide (keyS r ∉ T.rows.map keyT))).map
            (fun r => TRow.mk r.name (some r.cls)
              (List.replicate T.subjCols.length none ++ [some r.score]))).map
        keyT)
      = T.rows.map keyT
        ++ ((cleanTable t.2).map keyS).filter
            (fun k => decide (k ∉ T.rows.map keyT)) := by
    rw [List.map_append, List.map_map, List.map_map]
    congr 1
    rw [List.filter_map]
    rfl
  constructor
  · rfl
  constructor
  · exact hStray
  constructor
  · rw [hCols, List.map_append]
    rfl
  constructor
  · -- keys of the merged rows are nodup
    rw [hkeys]
    rw [List.nodup_append]
    refine ⟨hNd, List.Nodup.filter _ (hnd), ?_⟩
    intro k hk1 hk2
    rcases List.mem_filter.mp hk2 with ⟨-, hk3⟩
    rw [decide_eq_true_eq] at hk3
    exact hk3 hk1
  constructor
  · -- scores are per-table lookups
    intro r hr
    rcases List.mem_append.mp hr with hr1 | hr2
    · rcases List.mem_map.mp hr1 with ⟨l, hl, rfl⟩
      show l.scores ++ [lookupQ (cleanTable t.2) (keyT l)] = _
      rw [hScores l hl, hkeyExt l, List.map_append]
      rfl
    · rcases List.mem_map.mp hr2 with ⟨r0, hr0, rfl⟩
      rcases List.mem_filter.mp hr0 with ⟨hr0m, hr0c⟩
      rw [decide_eq_true_eq] at hr0c
      have hkey : keyT (TRow.mk r0.name (some r0.cls)
          (List.replicate T.subjCols.length none ++ [some r0.score]))
          = keyS r0 := rfl
      show List.replicate T.subjCols.length none ++ [some r0.score] = _
      rw [hkey, List.map_append]
      congr 1
      · -- the key is new, so every earlier lookup is none
        have hnone : ∀ u ∈ done, lookupQ (cleanTable u.2) (keyS r0) = none := by
          intro u hu
          rw [lookupQ_eq_none_iff]
          intro hk
          exact hr0c ((hMem (keyS r0)).mpr ⟨u, hu, hk⟩)
        have hlen : T.subjCols.length = done.length := by
          rw [hCols, List.length_map]
        rw [hlen]
        symm
        rw [List.eq_replicate_iff]
        exact ⟨List.length_map _ _, by
          intro b hb
          rcases List.mem_map.mp hb with ⟨u, hu, rfl⟩
          exact hnone u hu⟩
      · rw [List.map_cons, List.map_nil, lookupQ_self hnd hr0m]
  · -- key membership
    intro k
    rw [hkeys, List.mem_append, List.mem_filter]
    constructor
    · rintro (hk | ⟨hk, -⟩)
      · rcases (hMem k).mp hk with ⟨u, hu, hk2⟩
        exact ⟨u, List.mem_append_left _ hu, hk2⟩
      · exact ⟨t, List.mem_append_right _ (List.mem_singleton_self t), hk⟩
    · rintro ⟨u, hu, hk⟩
      rcases List.mem_append.mp hu with hu1 | hu2
      · exact Or.inl ((hMem k).mpr ⟨u, hu1, hk⟩)
      · rw [List.mem_singleton] at hu2
        subst hu2
        by_cases hin : k ∈ T.rows.map keyT
        · exact Or.inl hin
        · exact Or.inr ⟨hk, by rw [decide_eq_true_eq]; exact hin⟩

theorem foldl_mergedInv (ts : List (String × SubjectDF))
    (done : List (String × SubjectDF)) (T : TotalDF) (flag : Bool)
    (log : List Bool) (hInv : MergedInv done T)
    (H1 : ∀ t ∈ ts, t.2.hasCls = true)
    (H2 : ∀ t ∈ ts, cleanTable t.2 ≠ [])
    (H3 : ∀ t ∈ ts, ((cleanTable t.2).map keyS).Nodup) :
    ∃ T2, (ts.foldl procOne ⟨some T, flag, log⟩).acc = some T2
      ∧ MergedInv (done ++ ts) T2 := by
  induction ts generalizing done T flag log with
  | nil => exact ⟨T, rfl, by simpa using hInv⟩
  | cons t ts ih =>
      have h2t := H2 t (List.mem_cons_self t ts)
      have hrows : ¬ t.2.rows = [] := fun hr => h2t (by simp [cleanTable, hr])
      have hHas := hInv.1
      have hStray := hInv.2.1
      rw [List.foldl_cons]
      have hstep : procOne ⟨some T, flag, log⟩ t
          = ⟨some ⟨true, T.stray, T.subjCols ++ [t.1],
               outerMerge true T.hasCls T.subjCols.length T.rows
                 (cleanTable t.2)⟩,
             flag || t.2.hasCls, log ++ [true]⟩ := by
        simp only [procOne, if_neg hrows, if_neg h2t]
        rw [H1 t (List.mem_cons_self t ts), hHas]
        simp
      rw [hstep]
      have hInv2 := mergedInv_step done T t hInv (H3 t (List.mem_cons_self t ts))
      have hres := ih (done ++ [t]) _ (flag || t.2.hasCls) (log ++ [true]) hInv2
        (fun u hu => H1 u (List.mem_cons_of_mem t hu))
        (fun u hu => H2 u (List.mem_cons_of_mem t hu))
        (fun u hu => H3 u (List.mem_cons_of_mem t hu))
      rcases hres with ⟨T2, hT2, hI⟩
      refine ⟨T2, hT2, ?_⟩
      rw [List.append_assoc, List.singleton_append] at hI
      exact hI

/-- Characterization of the merge on the clean path: with every table
carrying a class column, at least one valid row per table, and unique
`(name, class)` keys per table, the merged frame keeps the class column,
suffixes no columns away, has one column per subject, no duplicate row
keys, and every row is the per-table lookup of its key; the row keys are
exactly the keys appearing in some table. -/
theorem mergeTables_char (tables : List (String × SubjectDF))
    (hne : tables ≠ [])
    (H1 : ∀ t ∈ tables, t.2.hasCls = true)
    (H2 : ∀ t ∈ tables, cleanTable t.2 ≠ [])
    (H3 : ∀ t ∈ tables, ((cleanTable t.2).map keyS).Nodup) :
    ∃ T, (mergeTables tables).acc = some T ∧ MergedInv tables T := by
  rcases tables with _ | ⟨t, ts⟩
  · exact absurd rfl hne
  unfold mergeTables
  rw [List.foldl_cons]
  have h2t := H2 t (List.mem_cons_self t ts)
  have hrows : ¬ t.2.rows = [] := fun hr => h2t (by simp [cleanTable, hr])
  have hstep : procOne ⟨none, false, []⟩ t
      = ⟨some ⟨true, false, [t.1],
          (cleanTable t.2).map (fun r => ⟨r.name, some r.cls, [some r.score]⟩)⟩,
         false || t.2.hasCls, []⟩ := by
    simp only [procOne, if_neg hrows, if_neg h2t]
  rw [hstep]
  have hres := foldl_mergedInv ts [t] _ (false || t.2.hasCls) []
    (mergedInv_first t (H3 t (List.mem_cons_self t ts)))
    (fun u hu => H1 u (List.mem_cons_of_mem t hu))
    (fun u hu => H2 u (List.mem_cons_of_mem t hu))
    (fun u hu => H3 u (List.mem_cons_of_mem t hu))
  rcases hres with ⟨T2, hT2, hI⟩
  exact ⟨T2, hT2, by rwa [List.singleton_append] at hI⟩

/-!
## Row totals under the characterization
-/

theorem rowTotalPass_char (done : List (String × SubjectDF)) (r : TRow)
    (hsc : r.scores = done.map (fun t => lookupQ (cleanTable t.2) (keyT r)))
    (hname : ∀ t ∈ done, t.1 ≠ "姓名" ∧ t.1 ≠ "班级") :
    rowTotalPass (done.map Prod.fst) r
      = ((done.filter (fun t => !containsZF t.1)).map
          (fun t => (lookupQ (cleanTable t.2) (keyT r)).getD 0)).sum := by
  unfold rowTotalPass
  rw [hsc, List.zip_map', List.filter_map, List.map_map]
  have hfil : done.filter
      (fun t => passCol ((fun a =>
        (a.1, lookupQ (cleanTable a.2) (keyT r))) t).1)
      = done.filter (fun t => !containsZF t.1) := by
    apply List.filter_congr
    intro t ht
    simp [passCol, (hname t ht).1, (hname t ht).2]
  rw [show (fun p => passCol p.1) ∘
      (fun t : String × SubjectDF => (t.1, lookupQ (cleanTable t.2) (keyT r)))
      = fun t => passCol t.1 from rfl]
  rw [hfil]
  rfl

theorem rowSubjVals_char (done : List (String × SubjectDF)) (r : TRow)
    (hsc : r.scores = done.map (fun t => lookupQ (cleanTable t.2) (keyT r)))
    (hname : ∀ t ∈ done, t.1 ≠ "姓名" ∧ t.1 ≠ "班级") :
    rowSubjVals (done.map Prod.fst) r
      = done.map (fun t => lookupQ (cleanTable t.2) (keyT r)) := by
  unfold rowSubjVals
  rw [hsc, List.zip_map', List.filter_map, List.map_map]
  have hfil : done.filter
      (fun t => assessSubjCol ((fun a =>
        (a.1, lookupQ (cleanTable a.2) (keyT r))) t).1) = done := by
    rw [List.filter_eq_self]
    intro t ht
    simp [assessSubjCol, (hname t ht).1, (hname t ht).2]
  rw [show (fun p => assessSubjCol p.1) ∘
      (fun t : String × SubjectDF => (t.1, lookupQ (cleanTable t.2) (keyT r)))
      = fun t => assessSubjCol t.1 from rfl]
  rw [hfil]
  rfl

/-- C2 counterexample: a subject table literally named `总分` (a
pre-existing aggregate column, which the wide-format reader does produce
since `总分` is not in its reserved-name list) merged with `数学`.
The claim says `analyze_school_total_score` uses the `总分` column (999)
as the total; the code instead excludes it from the sum and totals only
`数学` (70).  `calculate_class_assessment` is the path that uses 999. -/
theorem c2_counterexample :
    ∃ T, (mergeTables [("数学", ⟨true, [⟨"Ann", "1", some 70⟩]⟩),
                       ("总分", ⟨true, [⟨"Ann", "1", some 999⟩]⟩)]).acc
        = some T
      ∧ T.rows.map (rowTotalPass T.subjCols) = [70]
      ∧ (assessSplit T).1.map (fun p => p.2) = [999]
      ∧ (70 : ℚ) ≠ 999 := by
  refine ⟨⟨true, false, ["数学", "总分"],
    [⟨"Ann", some "1", [some 70, some 999]⟩]⟩, by decide, ?_, ?_, by norm_num⟩
  · have h1 : passCol "数学" = true := by decide
    have h2 : passCol "总分" = false := by decide
    simp [rowTotalPass, h1, h2]
  · have h3 : (["数学", "总分"] : List String).findIdx? assessZFCol
        = some 1 := by decide
    have h4 : ¬ ((999 : ℚ) ≤ 0) := by norm_num
    simp [assessSplit, h3, h4, assessInvalid, List.getD]

/-- C2 amended: in `analyze_school_total_score`, a merged column whose
name contains `总分` is excluded from the row-wise sum but NOT used as
the total: the total is always the skip-null sum of the remaining subject
columns (sum = 0 when none has a value).  Only
`calculate_class_assessment` uses a pre-existing `总分` column directly:
when the first such column sits at position `i` (the table at index `i`),
every surviving row's total is exactly that column's looked-up value
(necessarily positive); without such a column, the surviving rows' totals
are the all-subject sums. -/
theorem c2_total_source (tables : List (String × SubjectDF))
    (hne : tables ≠ [])
    (H1 : ∀ t ∈ tables, t.2.hasCls = true)
    (H2 : ∀ t ∈ tables, cleanTable t.2 ≠ [])
    (H3 : ∀ t ∈ tables, ((cleanTable t.2).map keyS).Nodup)
    (hname : ∀ t ∈ tables, t.1 ≠ "姓名" ∧ t.1 ≠ "班级") :
    ∃ T, (mergeTables tables).acc = some T
      ∧ (∀ r ∈ T.rows, rowTotalPass T.subjCols r
          = ((tables.filter (fun t => !containsZF t.1)).map
              (fun t => (lookupQ (cleanTable t.2) (keyT r)).getD 0)).sum)
      ∧ (∀ i, T.subjCols.findIdx? assessZFCol = some i →
          ∀ p ∈ (assessSplit T).1,
            ∃ t, tables[i]? = some t
              ∧ some p.2 = lookupQ (cleanTable t.2) (keyT p.1)
              ∧ 0 < p.2)
      ∧ (T.subjCols.findIdx? assessZFCol = none →
          ∀ p ∈ (assessSplit T).1,
            p.2 = (tables.map
              (fun t => (lookupQ (cleanTable t.2) (keyT p.1)).getD 0)).sum) := by
  obtain ⟨T, hacc, hHas, hStray, hCols, hNd, hScores, hMem⟩ :=
    mergeTables_char tables hne H1 H2 H3
  refine ⟨T, hacc, ?_, ?_, ?_⟩
  · intro r hr
    rw [hCols]
    exact rowTotalPass_char tables r (hScores r hr) hname
  · intro i hfind p hp
    unfold assessSplit at hp
    rw [hfind] at hp
    rcases List.mem_map.mp hp with ⟨r, hrf, rfl⟩
    rcases List.mem_filter.mp hrf with ⟨hrm, hrv⟩
    rw [Bool.not_eq_true'] at hrv
    rcases hval : r.scores.getD i none with _ | q
    · unfold assessInvalid at hrv
      rw [hval] at hrv
      simp at hrv
    · unfold assessInvalid at hrv
      rw [hval] at hrv
      simp only [decide_eq_false_iff_not, not_le] at hrv
      have hsc := hScores r hrm
      rw [List.getD_eq_getElem?_getD, hsc, List.getElem?_map] at hval
      rcases htab : tables[i]? with _ | t
      · rw [htab] at hval
        simp at hval
      · rw [htab] at hval
        simp only [Option.map_some', Option.getD_some] at hval
        refine ⟨t, rfl, ?_, ?_⟩
        · simp [hval]
        · simpa [hval] using hrv
  · intro hfind p hp
    unfold assessSplit at hp
    rw [hfind] at hp
    have hsub : ¬ (T.subjCols.filter assessSubjCol = []) := by
      rw [hCols]
      rcases tables with _ | ⟨t, ts⟩
      · exact absurd rfl hne
      · have : assessSubjCol t.1 = true := by
          simp [assessSubjCol, (hname t (List.mem_cons_self t ts)).1,
            (hname t (List.mem_cons_self t ts)).2]
        simp [List.filter_cons, this]
    rw [if_neg hsub] at hp
    rcases List.mem_map.mp hp with ⟨r, hrf, rfl⟩
    rcases List.mem_filter.mp hrf with ⟨hrm, -⟩
    show rowTotalAssess T.subjCols r = _
    unfold rowTotalAssess
    rw [hCols, rowSubjVals_char tables r (hScores r hrm) hname, List.map_map]
    rfl

/-- Witness for C2 amended at a concrete two-table input containing a
pre-existing `总分` column. -/
theorem c2_total_source_witness :
    ([(("数学" : String), SubjectDF.mk true [⟨"Ann", "1", some 70⟩]),
      (("总分" : String), SubjectDF.mk true [⟨"Ann", "1", some 999⟩])] ≠ [])
    ∧ ∃ T, (mergeTables
        [("数学", SubjectDF.mk true [⟨"Ann", "1", some 70⟩]),
         ("总分", SubjectDF.mk true [⟨"Ann", "1", some 999⟩])]).acc = some T
      ∧ (∀ r ∈ T.rows, rowTotalPass T.subjCols r
          = (([("数学", SubjectDF.mk true [⟨"Ann", "1", some 70⟩]),
              ("总分", SubjectDF.mk true [⟨"Ann", "1", some 999⟩])].filter
                (fun t => !containsZF t.1)).map
              (fun t => (lookupQ (cleanTable t.2) (keyT r)).getD 0)).sum)
      ∧ (∀ i, T.subjCols.findIdx? assessZFCol = some i →
          ∀ p ∈ (assessSplit T).1,
            ∃ t, [(("数学" : String), SubjectDF.mk true [⟨"Ann", "1", some 70⟩]),
                  (("总分" : String), SubjectDF.mk true [⟨"Ann", "1", some 999⟩])][i]?
                = some t
              ∧ some p.2 = lookupQ (cleanTable t.2) (keyT p.1)
              ∧ 0 < p.2)
      ∧ (T.subjCols.findIdx? assessZFCol = none →
          ∀ p ∈ (assessSplit T).1,
            p.2 = ([(("数学" : String), SubjectDF.mk true [⟨"Ann", "1", some 70⟩]),
                     (("总分" : String), SubjectDF.mk true [⟨"Ann", "1", some 999⟩])].map
              (fun t => (lookupQ (cleanTable t.2) (keyT p.1)).getD 0)).sum) :=
  ⟨by decide,
   c2_total_source
     [("数学", SubjectDF.mk true [⟨"Ann", "1", some 70⟩]),
      ("总分", SubjectDF.mk true [⟨"Ann", "1", some 999⟩])]
     (by decide) (by decide) (by decide) (by decide) (by decide)⟩

/-- The excluded-student list returned by `calculate_class_assessment`
is the one produced by the validity split (for a non-degenerate merge). -/
theorem calcAssessment_snd (tables : List (String × SubjectDF)) (tk yd : ℚ)
    (T : TotalDF) (hacc : (mergeTables tables).acc = some T)
    (hrows : ¬ T.rows = []) :
    (calculateClassAssessment tables tk yd).2 = (assessSplit T).2 := by
  unfold calculateClassAssessment
  rw [hacc]
  dsimp only
  rw [if_neg hrows]
  by_cases hdeg : (assessSplit T).1 = [] ∨ T.hasCls = false
  · rw [if_pos hdeg]
  · rw [if_neg hdeg]

theorem filter_assessSubjCol_ne_nil (tables : List (String × SubjectDF))
    (hne : tables ≠ [])
    (hname : ∀ t ∈ tables, t.1 ≠ "姓名" ∧ t.1 ≠ "班级") :
    ¬ ((tables.map Prod.fst).filter assessSubjCol = []) := by
  rcases tables with _ | ⟨t, ts⟩
  · exact absurd rfl hne
  · have hc : assessSubjCol t.1 = true := by
      simp [assessSubjCol, (hname t (List.mem_cons_self t ts)).1,
        (hname t (List.mem_cons_self t ts)).2]
    simp [List.filter_cons, hc]

/-- C3: a student present with a valid score in at least one subject
table but missing from another (with no pre-existing total column)
yields, under the pass-line path, a merged row whose total is the
skip-null sum of the available scores, retained exactly when that total
is positive — while under the class-assessment path the same student is
excluded before summation (appears among no valid row) and is recorded in
`excluded_students` with the missing-subject reason. -/
theorem c3_missing_subject_paths (tables : List (String × SubjectDF))
    (tk yd : ℚ) (n0 c0 : String)
    (hne : tables ≠ [])
    (H1 : ∀ t ∈ tables, t.2.hasCls = true)
    (H2 : ∀ t ∈ tables, cleanTable t.2 ≠ [])
    (H3 : ∀ t ∈ tables, ((cleanTable t.2).map keyS).Nodup)
    (hname : ∀ t ∈ tables, t.1 ≠ "姓名" ∧ t.1 ≠ "班级")
    (hZF : ∀ t ∈ tables, containsZF t.1 = false)
    (hin : ∃ t ∈ tables, (n0, some c0) ∈ (cleanTable t.2).map keyS)
    (hmiss : ∃ t ∈ tables, lookupQ (cleanTable t.2) (n0, some c0) = none) :
    ∃ T, (mergeTables tables).acc = some T
      ∧ (∃ r ∈ T.rows, keyT r = (n0, some c0))
      ∧ (∀ r ∈ T.rows, keyT r = (n0, some c0) →
          rowTotalPass T.subjCols r
            = (tables.map (fun t =>
                (lookupQ (cleanTable t.2) (n0, some c0)).getD 0)).sum
          ∧ (r ∈ passFiltered T ↔ 0 < rowTotalPass T.subjCols r))
      ∧ (∀ p ∈ (assessSplit T).1, keyT p.1 ≠ (n0, some c0))
      ∧ ExcludedE.mk (pyStrip n0) (pyStrip c0) "存在缺考或成绩缺失"
          ∈ (calculateClassAssessment tables tk yd).2 := by
  obtain ⟨T, hacc, hHas, hStray, hCols, hNd, hScores, hMem⟩ :=
    mergeTables_char tables hne H1 H2 H3
  have hkey : (n0, some c0) ∈ T.rows.map keyT := (hMem _).mpr hin
  rcases List.mem_map.mp hkey with ⟨r0, hr0, hk0⟩
  have htot : ∀ r ∈ T.rows, keyT r = (n0, some c0) →
      rowTotalPass T.subjCols r = (tables.map (fun t =>
        (lookupQ (cleanTable t.2) (n0, some c0)).getD 0)).sum := by
    intro r hr hk
    rw [hCols, rowTotalPass_char tables r (hScores r hr) hname,
      List.filter_eq_self.mpr (fun t ht => by simp [hZF t ht]), hk]
  have hfind : T.subjCols.findIdx? assessZFCol = none := by
    rw [List.findIdx?_eq_none_iff]
    intro c hc
    rw [hCols] at hc
    rcases List.mem_map.mp hc with ⟨t, ht, rfl⟩
    simp [assessZFCol, hZF t ht]
  have hsub : ¬ (T.subjCols.filter assessSubjCol = []) := by
    rw [hCols]
    exact filter_assessSubjCol_ne_nil tables hne hname
  have hnotall : ∀ r ∈ T.rows, keyT r = (n0, some c0) →
      rowAllPresent T.subjCols r = false := by
    intro r hr hk
    unfold rowAllPresent
    rw [hCols, rowSubjVals_char tables r (hScores r hr) hname, hk]
    rw [List.all_eq_false]
    rcases hmiss with ⟨t, ht, hl⟩
    exact ⟨lookupQ (cleanTable t.2) (n0, some c0),
      List.mem_map_of_mem _ ht, by rw [hl]; simp⟩
  have hvalid : ∀ p ∈ (assessSplit T).1, keyT p.1 ≠ (n0, some c0) := by
    intro p hp hk
    unfold assessSplit at hp
    rw [hfind, if_neg hsub] at hp
    rcases List.mem_map.mp hp with ⟨r, hrf, rfl⟩
    rcases List.mem_filter.mp hrf with ⟨hrm, hrv⟩
    rw [hnotall r hrm hk] at hrv
    exact absurd hrv (by simp)
  have hpf : ∀ r ∈ T.rows,
      (r ∈ passFiltered T ↔ 0 < rowTotalPass T.subjCols r) := by
    intro r hr
    unfold passFiltered
    rw [List.mem_filter]
    constructor
    · rintro ⟨-, h⟩
      exact of_decide_eq_true h
    · intro h
      exact ⟨hr, decide_eq_true h⟩
  have hexc : ExcludedE.mk (pyStrip n0) (pyStrip c0) "存在缺考或成绩缺失"
      ∈ (assessSplit T).2 := by
    unfold assessSplit
    rw [hfind]
    dsimp only
    rw [if_neg hsub]
    have hr0f : r0 ∈ T.rows.filter (fun r => !rowAllPresent T.subjCols r) := by
      rw [List.mem_filter]
      refine ⟨hr0, ?_⟩
      rw [hnotall r0 hr0 hk0]
      rfl
    have hmm := List.mem_map_of_mem
      (fun r => mkExcluded T.hasCls r "存在缺考或成绩缺失") hr0f
    have hn : r0.name = n0 := congrArg Prod.fst hk0
    have hc : r0.cls = some c0 := congrArg Prod.snd hk0
    have heq : mkExcluded T.hasCls r0 "存在缺考或成绩缺失"
        = ExcludedE.mk (pyStrip n0) (pyStrip c0) "存在缺考或成绩缺失" := by
      unfold mkExcluded exCls
      rw [hHas, hn, hc]
      simp
    simpa only [heq] using hmm
  have hrne : ¬ T.rows = [] := by
    intro h
    rw [h] at hr0
    exact absurd hr0 (List.not_mem_nil r0)
  refine ⟨T, hacc, ⟨r0, hr0, hk0⟩,
    fun r hr hk => ⟨htot r hr hk, hpf r hr⟩, hvalid, ?_⟩
  rw [calcAssessment_snd tables tk yd T hacc hrne]
  exact hexc

/-- Witness for C3: the Zoe scenario, present in `数学` with 70 and
absent from `英语`. -/
theorem c3_witness :
    ((∃ t ∈ [(("数学" : String), SubjectDF.mk true [⟨"Zoe", "1", some 70⟩]),
             (("英语" : String), SubjectDF.mk true [⟨"Ann", "1", some 80⟩])],
        (("Zoe" : String), some ("1" : String)) ∈ (cleanTable t.2).map keyS)
     ∧ (∃ t ∈ [(("数学" : String), SubjectDF.mk true [⟨"Zoe", "1", some 70⟩]),
             (("英语" : String), SubjectDF.mk true [⟨"Ann", "1", some 80⟩])],
        lookupQ (cleanTable t.2) ("Zoe", some "1") = none))
    ∧ (∃ T, (mergeTables
        [("数学", SubjectDF.mk true [⟨"Zoe", "1", some 70⟩]),
         ("英语", SubjectDF.mk true [⟨"Ann", "1", some 80⟩])]).acc = some T
      ∧ (∃ r ∈ T.rows, keyT r = ("Zoe", some "1"))
      ∧ (∀ r ∈ T.rows, keyT r = ("Zoe", some "1") →
          rowTotalPass T.subjCols r
            = ([("数学", SubjectDF.mk true [⟨"Zoe", "1", some 70⟩]),
                ("英语", SubjectDF.mk true [⟨"Ann", "1", some 80⟩])].map
                (fun t =>
                  (lookupQ (cleanTable t.2) ("Zoe", some "1")).getD 0)).sum
          ∧ (r ∈ passFiltered T ↔ 0 < rowTotalPass T.subjCols r))
      ∧ (∀ p ∈ (assessSplit T).1, keyT p.1 ≠ ("Zoe", some "1"))
      ∧ ExcludedE.mk (pyStrip "Zoe") (pyStrip "1") "存在缺考或成绩缺失"
          ∈ (calculateClassAssessment
              [("数学", SubjectDF.mk true [⟨"Zoe", "1", some 70⟩]),
               ("英语", SubjectDF.mk true [⟨"Ann", "1", some 80⟩])]
              500 400).2) :=
  ⟨⟨by decide, by decide⟩,
   c3_missing_subject_paths
     [("数学", SubjectDF.mk true [⟨"Zoe", "1", some 70⟩]),
      ("英语", SubjectDF.mk true [⟨"Ann", "1", some 80⟩])]
     500 400 "Zoe" "1" (by decide) (by decide) (by decide) (by decide)
     (by decide) (by decide) (by decide) (by decide)⟩

theorem filter_not_length {α : Type} (p : α → Bool) (l : List α) :
    (l.filter p).length + (l.filter (fun a => !p a)).length = l.length := by
  induction l with
  | nil => simp
  | cons x xs ih =>
      cases hx : p x <;> simp [List.filter_cons, hx] <;> omega

theorem mem_classesOf_ok {rows : List TRow} {cn : String}
    (h : cn ∈ classesOf rows) : cn ≠ "" ∧ cn ≠ "nan" := by
  unfold classesOf at h
  rcases List.mem_filter.mp h with ⟨-, hcond⟩
  rw [Bool.and_eq_true, decide_eq_true_eq, decide_eq_true_eq] at hcond
  exact hcond

/-- C10: in `calculate_class_assessment`, a student row that survives the
exclusion filters but whose class label normalizes to empty or the
placeholder `nan` is counted in no class result (every class result
carries a non-empty, non-`nan` label, and its three counts range only
over the rows bearing exactly that label), is never added to
`excluded_students` (whose length accounts precisely for the
non-surviving rows), and hence vanishes from the output without any
record.  The class-column hypothesis plays the same role as in the C5
theorem. -/
theorem c10_unlabeled_class_rows_vanish (tables : List (String × SubjectDF))
    (tk yd : ℚ) (hcls : ∀ t ∈ tables, t.2.hasCls = true)
    (T : TotalDF) (hacc : (mergeTables tables).acc = some T) :
    (∀ cr ∈ (calculateClassAssessment tables tk yd).1,
        (cr.class_name ≠ "" ∧ cr.class_name ≠ "nan")
        ∧ cr.total_students = ((assessSplit T).1.filter
            (fun p => decide (classKey p.1 = cr.class_name))).length
        ∧ cr.tekong_passed = (((assessSplit T).1.filter
            (fun p => decide (classKey p.1 = cr.class_name))).filter
            (fun p => decide (tk ≤ p.2))).length
        ∧ cr.yiduan_passed = (((assessSplit T).1.filter
            (fun p => decide (classKey p.1 = cr.class_name))).filter
            (fun p => decide (yd ≤ p.2))).length)
    ∧ (∀ p ∈ (assessSplit T).1,
        classKey p.1 = "" ∨ classKey p.1 = "nan" →
        ∀ cr ∈ (calculateClassAssessment tables tk yd).1,
          p ∉ (assessSplit T).1.filter
            (fun x => decide (classKey x.1 = cr.class_name)))
    ∧ (¬ T.rows = [] → ¬ T.subjCols.filter assessSubjCol = [] →
        (calculateClassAssessment tables tk yd).2.length
          + (assessSplit T).1.length = T.rows.length) := by
  have hcrs : ∀ cr ∈ (calculateClassAssessment tables tk yd).1,
      (cr.class_name ≠ "" ∧ cr.class_name ≠ "nan")
      ∧ cr.total_students = ((assessSplit T).1.filter
          (fun p => decide (classKey p.1 = cr.class_name))).length
      ∧ cr.tekong_passed = (((assessSplit T).1.filter
          (fun p => decide (classKey p.1 = cr.class_name))).filter
          (fun p => decide (tk ≤ p.2))).length
      ∧ cr.yiduan_passed = (((assessSplit T).1.filter
          (fun p => decide (classKey p.1 = cr.class_name))).filter
          (fun p => decide (yd ≤ p.2))).length := by
    intro cr hcr
    unfold calculateClassAssessment at hcr
    rw [hacc] at hcr
    dsimp only at hcr
    by_cases hrows : T.rows = []
    · rw [if_pos hrows] at hcr
      simp at hcr
    · rw [if_neg hrows] at hcr
      by_cases hdeg : (assessSplit T).1 = [] ∨ T.hasCls = false
      · rw [if_pos hdeg] at hcr
        simp at hcr
      · rw [if_neg hdeg] at hcr
        rcases mem_rankAssign hcr with ⟨cr2, hcr2, hname, h1, h2, h3, -⟩
        have hpre : cr2 ∈ classResultsPre tk yd (assessSplit T).1 :=
          ((sortByDesc_perm (fun c => c.assessment_score) _).mem_iff).mp hcr2
        rcases List.mem_map.mp hpre with ⟨cn, hcn, rfl⟩
        have hok := mem_classesOf_ok hcn
        have hcn2 : cr.class_name = cn := hname
        rw [hcn2]
        exact ⟨hok, h1, h2, h3⟩
  refine ⟨hcrs, ?_, ?_⟩
  · intro p hp hbad cr hcr hmemf
    rcases List.mem_filter.mp hmemf with ⟨-, hkey⟩
    rw [decide_eq_true_eq] at hkey
    rcases (hcrs cr hcr).1 with ⟨hne, hnan⟩
    rcases hbad with hb | hb
    · exact hne (by rw [← hkey, hb])
    · exact hnan (by rw [← hkey, hb])
  · intro hrows hsub
    rw [calcAssessment_snd tables tk yd T hacc hrows]
    unfold assessSplit
    cases hfind : T.subjCols.findIdx? assessZFCol with
    | some i =>
        dsimp only
        rw [List.length_map, List.length_map]
        exact filter_not_length (fun r => assessInvalid i r) T.rows
    | none =>
        dsimp only
        rw [if_neg hsub]
        dsimp only
        rw [List.length_map, List.length_map, Nat.add_comm]
        exact filter_not_length (fun r => rowAllPresent T.subjCols r) T.rows

/-- Witness for C10 at a concrete input in which student `c` has an
empty class label, survives the exclusion filters, and appears in neither
the class results nor the excluded list. -/
theorem c10_witness :
    (∀ t ∈ [(("数学" : String), SubjectDF.mk true
        [⟨"a", "1", some 90⟩, ⟨"b", "2", some 40⟩, ⟨"c", "", some 80⟩]),
        (("英语" : String), SubjectDF.mk true
        [⟨"a", "1", some 90⟩, ⟨"b", "2", some 50⟩, ⟨"c", "", some 80⟩])],
       t.2.hasCls = true)
    ∧ (mergeTables [("数学", SubjectDF.mk true
        [⟨"a", "1", some 90⟩, ⟨"b", "2", some 40⟩, ⟨"c", "", some 80⟩]),
        ("英语", SubjectDF.mk true
        [⟨"a", "1", some 90⟩, ⟨"b", "2", some 50⟩, ⟨"c", "", some 80⟩])]).acc
      = some ⟨true, false, ["数学", "英语"],
          [⟨"a", some "1", [some 90, some 90]⟩,
           ⟨"b", some "2", [some 40, some 50]⟩,
           ⟨"c", some "", [some 80, some 80]⟩]⟩
    ∧ ((calculateClassAssessment [("数学", SubjectDF.mk true
          [⟨"a", "1", some 90⟩, ⟨"b", "2", some 40⟩, ⟨"c", "", some 80⟩]),
          ("英语", SubjectDF.mk true
          [⟨"a", "1", some 90⟩, ⟨"b", "2", some 50⟩, ⟨"c", "", some 80⟩])]
            150 80).2.length
        + (assessSplit ⟨true, false, ["数学", "英语"],
            [⟨"a", some "1", [some 90, some 90]⟩,
             ⟨"b", some "2", [some 40, some 50]⟩,
             ⟨"c", some "", [some 80, some 80]⟩]⟩).1.length
        = (TotalDF.mk true false ["数学", "英语"]
            [⟨"a", some "1", [some 90, some 90]⟩,
             ⟨"b", some "2", [some 40, some 50]⟩,
             ⟨"c", some "", [some 80, some 80]⟩]).rows.length) :=
  ⟨by decide, by decide,
   (c10_unlabeled_class_rows_vanish
     [("数学", SubjectDF.mk true
        [⟨"a", "1", some 90⟩, ⟨"b", "2", some 40⟩, ⟨"c", "", some 80⟩]),
      ("英语", SubjectDF.mk true
        [⟨"a", "1", some 90⟩, ⟨"b", "2", some 50⟩, ⟨"c", "", some 80⟩])]
     150 80 (by decide)
     ⟨true, false, ["数学", "英语"],
      [⟨"a", some "1", [some 90, some 90]⟩,
       ⟨"b", some "2", [some 40, some 50]⟩,
       ⟨"c", some "", [some 80, some 80]⟩]⟩
     (by decide)).2.2 (by decide) (by decide)⟩

end ScoreAnalysis
